import Mathlib

/-! PostFitShapesFromWorkspace.

A shallow embedding of `CombineTools/bin/PostFitShapesFromWorkspace.cpp`:
the bin-reversal helper `ReverseBins`, the handling of the `--freeze`
directive, and the orchestration in `main` that evaluates every category in
the pre-fit and post-fit state and writes histograms and yields to the
output file.

Numbers are exact rationals; the rounding of the C++ `float`/`double`
types is not part of the model.
-/

namespace PostFitShapes

/-! ## Histograms -/

/-- Modelled from the spec: the histogram type `TH1F` is declared outside this
source file.  A histogram is an ordered sequence of (content, uncertainty)
pairs over a fixed number of bins plus bin-edge metadata; as in the library,
bin `0` is the underflow cell, bins `1..N` are the regular bins and bin `N+1`
is the overflow cell. -/
structure TH1F where
  edges : List ℚ
  underflow : ℚ × ℚ
  bins : List (ℚ × ℚ)
  overflow : ℚ × ℚ
deriving DecidableEq

namespace TH1F

/-- Number of regular bins. -/
def GetNbinsX (h : TH1F) : Nat := h.bins.length

/-- The (content, uncertainty) cell addressed by the 1-based bin number;
numbers past the overflow cell are clamped to it. -/
def cell (h : TH1F) (bin : Nat) : ℚ × ℚ :=
  if bin = 0 then h.underflow
  else if bin ≤ h.bins.length then h.bins.getD (bin - 1) (0, 0)
  else h.overflow

/-- Replace the cell addressed by the 1-based bin number; a number past the
overflow cell leaves the histogram as it is. -/
def setCell (h : TH1F) (bin : Nat) (f : ℚ × ℚ → ℚ × ℚ) : TH1F :=
  if bin = 0 then { h with underflow := f h.underflow }
  else if bin ≤ h.bins.length then
    { h with bins := h.bins.set (bin - 1) (f (h.bins.getD (bin - 1) (0, 0))) }
  else if bin = h.bins.length + 1 then { h with overflow := f h.overflow }
  else h

def GetBinContent (h : TH1F) (bin : Nat) : ℚ := (h.cell bin).1

def GetBinError (h : TH1F) (bin : Nat) : ℚ := (h.cell bin).2

def SetBinContent (h : TH1F) (bin : Nat) (c : ℚ) : TH1F :=
  h.setCell bin (fun p => (c, p.2))

def SetBinError (h : TH1F) (bin : Nat) (e : ℚ) : TH1F :=
  h.setCell bin (fun p => (p.1, e))

/-- Sum of the contents of the regular bins. -/
def Integral (h : TH1F) : ℚ := (h.bins.map Prod.fst).sum

end TH1F

/-- First loop of `ReverseBins`: `buf[i] = get (i + 1)` for `i = 0 .. n-1`,
starting from a zero-filled vector of size `n`. -/
def copyBins (n : Nat) (get : Nat → ℚ) : List ℚ :=
  (List.range n).foldl (fun buf i => buf.set i (get (i + 1))) (List.replicate n 0)

/-- `ReverseBins` (lines 20-32): copy contents and errors of bins `1..N` into
two vectors, then store entry `i` of each vector into bin `N - i`. -/
def ReverseBins (h : TH1F) : TH1F :=
  let contents := copyBins h.GetNbinsX h.GetBinContent
  let errors := copyBins h.GetNbinsX h.GetBinError
  (List.range h.GetNbinsX).foldl
    (fun h' i =>
      (h'.SetBinContent (h'.GetNbinsX - i) (contents.getD i 0)).SetBinError
        (h'.GetNbinsX - i) (errors.getD i 0))
    h

/-! ## Strings, vectors and ordered maps -/

/-- Split a character sequence at every occurrence of `sep`, keeping empty
pieces (`boost::split` with `is_any_of` of one character). -/
def splitChars (sep : Char) : List Char → List (List Char)
  | [] => [[]]
  | c :: cs =>
    if c = sep then [] :: splitChars sep cs
    else
      match splitChars sep cs with
      | [] => [[c]]
      | hd :: tl => (c :: hd) :: tl

/-- Pieces of `s` between occurrences of `sep`; never empty. -/
def split (s : String) (sep : Char) : List String :=
  (splitChars sep s.data).map String.mk

def starts_with (s pre : String) : Bool := pre.data.isPrefixOf s.data

def ends_with (s suf : String) : Bool := suf.data.isSuffixOf s.data

/-- `s.substr(pos, len)`. -/
def substr (s : String) (pos len : Nat) : String := String.mk ((s.data.drop pos).take len)

/-- Ordered map from strings (`std::map<std::string, T>`): an association list
kept in increasing key order. -/
abbrev SMap (α : Type) := List (String × α)

namespace SMap

/-- `m[k] = v`: overwrite the entry of `k` or insert it at its place in key
order. -/
def assign {α : Type} : SMap α → String → α → SMap α
  | [], k, v => [(k, v)]
  | (k', v') :: rest, k, v =>
    if k = k' then (k, v) :: rest
    else if k.data < k'.data then (k, v) :: (k', v') :: rest
    else (k', v') :: assign rest k v

def find {α : Type} (m : SMap α) (k : String) : Option α :=
  (List.find? (fun e => decide (e.1 = k)) m).map Prod.snd

def keys {α : Type} (m : SMap α) : List String := m.map Prod.fst

/-- Apply `f` to every stored value (a loop `for (auto & it : m) it.second = f(it.second)`). -/
def mapValues {α : Type} (f : α → α) (m : SMap α) : SMap α := m.map (fun e => (e.1, f e.2))

end SMap

/-- Increasing list of distinct strings (`std::set<std::string>` built from a list). -/
def toSet (l : List String) : List String :=
  SMap.keys (l.foldl (fun (m : SMap Unit) k => m.assign k ()) [])

/-! ## The model, its selections and its evaluators -/

structure Parameter where
  name : String
  val : ℚ
  frozen : Bool
deriving DecidableEq

/-- Modelled from the spec: `ch::Process` is declared outside this source file.
A process is a named contributor to one category, classified as signal or
background, with an expected rate; `shape`, `data` and `pdf` say which of a
histogram, a dataset and a density function it carries. -/
structure Process where
  bin : String
  process : String
  signal : Bool
  rate : ℚ
  shape : Option TH1F
  data : Bool
  pdf : Bool
deriving DecidableEq

/-- Modelled from the spec: `ch::Observation`, the observed histogram and rate
of one category. -/
structure Observation where
  bin : String
  rate : ℚ
  shape : TH1F
deriving DecidableEq

/-- Modelled from the spec: `ch::CombineHarvester`, the fitted model seen through
its facade: observations, processes and named parameters. -/
structure CombineHarvester where
  obs : List Observation
  procs : List Process
  params : List Parameter
deriving DecidableEq

structure RooRealVar where
  name : String
  val : ℚ
  error : ℚ
deriving DecidableEq

structure TH2F where
  cells : List (List ℚ)
deriving DecidableEq

structure RooFitResult where
  floatPars : List (String × ℚ)
  covariance : List (List ℚ)
deriving DecidableEq

/-- The evaluators of `ch::CombineHarvester` and the library functions that
`main` calls; none of them is defined in this source file, so they are taken
as parameters.  `regex_match pattern subject` is a full-string regular
expression match. -/
structure Engine where
  regex_match : String → String → Bool
  lexical_cast : String → Option ℚ
  sqrt : ℚ → ℚ
  GetObservedShape : CombineHarvester → TH1F
  GetObservedRate : CombineHarvester → ℚ
  GetShape : CombineHarvester → TH1F
  GetShapeWithUncertainty : CombineHarvester → TH1F
  GetShapeWithUncertaintySampled : CombineHarvester → RooFitResult → Nat → TH1F
  GetRate : CombineHarvester → ℚ
  GetUncertainty : CombineHarvester → ℚ
  GetUncertaintySampled : CombineHarvester → RooFitResult → Nat → ℚ
  GetRateCovariance : CombineHarvester → RooFitResult → Nat → TH2F
  GetRateCorrelation : CombineHarvester → RooFitResult → Nat → TH2F
  UpdateParameters : CombineHarvester → RooFitResult → CombineHarvester
  RestoreBinning : TH1F → TH1F → TH1F

namespace CombineHarvester

/-- Modelled from the spec: the category filter `bin({..})` of the process
selector, which is not in this source file.  With the flag
`filters-use-regex` set (line 151) an entry is kept when its category name is
matched in full by one of the patterns. -/
def bin (E : Engine) (cmb : CombineHarvester) (vec : List String) : CombineHarvester :=
  { cmb with
    obs := cmb.obs.filter (fun o => vec.any (fun r => E.regex_match r o.bin))
    procs := cmb.procs.filter (fun p => vec.any (fun r => E.regex_match r p.bin)) }

/-- Modelled from the spec: the process filter `process({..})`, a full-string
regular-expression match of the process name against the patterns. -/
def process (E : Engine) (cmb : CombineHarvester) (vec : List String) : CombineHarvester :=
  { cmb with
    procs := cmb.procs.filter (fun p => vec.any (fun r => E.regex_match r p.process)) }

/-- Modelled from the spec: `signals()`, the processes classified as signal. -/
def signals (cmb : CombineHarvester) : CombineHarvester :=
  { cmb with procs := cmb.procs.filter (fun p => p.signal) }

/-- Modelled from the spec: `backgrounds()`, the processes classified as
background. -/
def backgrounds (cmb : CombineHarvester) : CombineHarvester :=
  { cmb with procs := cmb.procs.filter (fun p => !p.signal) }

/-- Modelled from the spec: `process_set()`, the set of process names of the
selection. -/
def process_set (cmb : CombineHarvester) : List String :=
  toSet (cmb.procs.map (fun p => p.process))

/-- Modelled from the spec: `bin_set()`, the set of category names of the model. -/
def bin_set (cmb : CombineHarvester) : List String :=
  toSet (cmb.obs.map (fun o => o.bin) ++ cmb.procs.map (fun p => p.bin))

/-- Modelled from the spec: `FilterProcs(f)` drops every process for which `f`
holds. -/
def FilterProcs (cmb : CombineHarvester) (f : Process → Bool) : CombineHarvester :=
  { cmb with procs := cmb.procs.filter (fun p => !f p) }

/-- Modelled from the spec: `GetParameter(name)`, the parameter with exactly
this name, if there is one. -/
def GetParameter (cmb : CombineHarvester) (name : String) : Option Parameter :=
  cmb.params.find? (fun p => decide (p.name = name))

/-- Update through the pointer returned by `GetParameter(name)`: the parameter
stored under `name` is replaced by its image under `f`. -/
def modifyParameter (cmb : CombineHarvester) (name : String) (f : Parameter → Parameter) :
    CombineHarvester :=
  { cmb with params := cmb.params.map (fun p => if p.name = name then f p else p) }

end CombineHarvester

/-! ## Errors -/

/-- The exceptions that leave `main`, by class and message text. -/
inductive Error where
  | logic_error (what : String)
  | runtime_error (what : String)
  | bad_lexical_cast
deriving DecidableEq

/-- Message of both `throw` statements of the freeze block (lines 192 and 204). -/
def freezeMissing : String := "Requested variable to freeze does not exist in workspace"

/-! ## The freeze directive (lines 155-208) -/

/-- `par->set_val(lexical_cast<double>(parts[1]))` when the item has exactly two
parts, then `par->set_frozen(true)`. -/
def freezeParameter (E : Engine) (parts : List String) (cmb : CombineHarvester)
    (name : String) : Except Error CombineHarvester :=
  if parts.length = 2 then
    match E.lexical_cast (parts.getD 1 "") with
    | none => .error Error.bad_lexical_cast
    | some v =>
      .ok (cmb.modifyParameter name (fun p => { p with val := v, frozen := true }))
  else
    .ok (cmb.modifyParameter name (fun p => { p with frozen := true }))

/-- The loop over `parameters` of the `rgx{...}` branch (lines 178-189),
carrying the model and the flag `matched`. -/
def freezeRegexLoop (E : Engine) (parts : List String) (reg_esp : String) :
    List String → CombineHarvester × Bool → Except Error (CombineHarvester × Bool)
  | [], st => .ok st
  | parname :: rest, (cmb, matched) =>
    if E.regex_match reg_esp parname then
      match freezeParameter E parts cmb parname with
      | .error e => .error e
      | .ok cmb' => freezeRegexLoop E parts reg_esp rest (cmb', true)
    else freezeRegexLoop E parts reg_esp rest (cmb, matched)

/-- Whether `current_expr` has the form `rgx{...}` (line 170). -/
def isRegexItem (current_expr : String) : Bool :=
  starts_with current_expr "rgx\x7b" && ends_with current_expr "\x7d"

/-- Body of the loop over the items of the directive (lines 164-207). -/
def freezeItem (E : Engine) (parameters : List String) (cmb : CombineHarvester)
    (item : String) : Except Error CombineHarvester :=
  let parts := split item '='
  let current_expr := parts.getD 0 ""
  if isRegexItem current_expr then
    let reg_esp := substr current_expr 4 (current_expr.data.length - 5)
    match freezeRegexLoop E parts reg_esp parameters (cmb, false) with
    | .error e => .error e
    | .ok (cmb', matched) =>
      if !matched then .error (Error.runtime_error freezeMissing) else .ok cmb'
  else
    match cmb.GetParameter current_expr with
    | some par => freezeParameter E parts cmb par.name
    | none => .error (Error.runtime_error freezeMissing)

/-- The loop over the items, stopping at the first exception. -/
def freezeItems (E : Engine) (parameters : List String) :
    CombineHarvester → List String → Except Error CombineHarvester
  | cmb, [] => .ok cmb
  | cmb, item :: rest =>
    match freezeItem E parameters cmb item with
    | .error e => .error e
    | .ok cmb' => freezeItems E parameters cmb' rest

/-- The freeze block (lines 155-208): nothing happens for an empty directive;
otherwise the directive is split at commas and the items are processed in
order against the list of parameter names taken before the loop. -/
def freeze (E : Engine) (cmb : CombineHarvester) (freeze_arg : String) :
    Except Error CombineHarvester :=
  if freeze_arg.data.isEmpty then .ok cmb
  else
    freezeItems E (cmb.params.map (fun p => p.name)) cmb (split freeze_arg ',')

/-! ## Options, inputs and outputs of `main` -/

/-- The option variables of `main` (lines 38-56). -/
structure Options where
  datacard : String
  workspace : String
  fitresult : String
  mass : String
  postfit : Bool
  sampling : Bool
  output : String
  factors : Bool
  samples : Nat
  freeze_arg : String
  covariance : Bool
  data : String
  skip_prefit : Bool
  skip_proc_errs : Bool
  total_shapes : Bool
  reverse_bins_ : List String
  bins_ : List String
  input_merge_procs_ : List String
deriving DecidableEq

/-- The values the option variables are initialised with (lines 38-56). -/
def Options.initial : Options where
  datacard := ""
  workspace := ""
  fitresult := ""
  mass := ""
  postfit := false
  sampling := false
  output := ""
  factors := false
  samples := 500
  freeze_arg := ""
  covariance := false
  data := "data_obs"
  skip_prefit := false
  skip_proc_errs := false
  total_shapes := false
  reverse_bins_ := []
  bins_ := []
  input_merge_procs_ := []

/-- What the command-line parser delivers: whether `--help` was given and the
values it stores into the option variables at `po::notify` (line 137). -/
structure CommandLine where
  help : Bool
  parsed : Options

/-- The files the program reads.  `workspace path` is the object `w` of the
workspace file, as a function from the dataset name to the parsed model, or
`none` when there is no such object; `ParseDatacard datacard mass` is the
parsed datacard; `OpenFromTFile path` loads the fit result or raises. -/
structure World where
  workspace : String → Option (String → CombineHarvester)
  ParseDatacard : String → String → CombineHarvester
  OpenFromTFile : String → Except Error RooFitResult

/-- An object written to the output file. -/
inductive Obj where
  | hist (h : TH1F)
  | yield (y : RooRealVar)
  | matrix (m : TH2F)
deriving DecidableEq

/-- The output file: the objects written so far with their paths, in order. -/
abbrev TFile := List (String × Obj)

/-- The tables printed with `--print`. -/
structure Console where
  prefit_uncert : List (String × ℚ)
  postfit_uncert : List (String × ℚ)
  scale_factors : List (String × String × ℚ)
deriving DecidableEq

/-- Outcome of a run: the output file (`none` while it has not been created),
the printed tables, and the exit code or the exception that ended the run. -/
structure Run where
  outfile : Option TFile
  console : Console
  exit : Except Error Nat

/-- Nothing printed. -/
def Console.empty : Console := ⟨[], [], []⟩

/-- An empty model. -/
def CombineHarvester.empty : CombineHarvester := ⟨[], [], []⟩

/-- A default-constructed histogram. -/
def TH1F.default : TH1F := ⟨[], (0, 0), [], (0, 0)⟩

/-! ## Pre-fit evaluation (lines 262-414) -/

/-- Parse of the merge directives (lines 212-216): `merged_procs[parts[0]] =
parts[1]`.  A directive without `=` makes the source read past the end of
`parts`; the model reads an empty pattern there. -/
def parseMergeProcs (input_merge_procs_ : List String) : SMap String :=
  input_merge_procs_.foldl
    (fun m i => m.assign ((split i '=').getD 0 "") ((split i '=').getD 1 "")) []

/-- Rebinning of every histogram of a map to the datacard reference, when a
datacard is given (lines 288-293, 376-381). -/
def restoreAll (E : Engine) (o : Options) (ref : TH1F) (shapes : SMap TH1F) : SMap TH1F :=
  if o.datacard ≠ "" then shapes.mapValues (fun h => E.RestoreBinning h ref) else shapes

/-- The loop over `reverse_bins_` (lines 383-389, 597-604): every entry equal
to `bin` reverses all histograms of the category. -/
def reverseAll (o : Options) (bin : String) (shapes : SMap TH1F) : SMap TH1F :=
  o.reverse_bins_.foldl
    (fun hs rbin => if rbin ≠ bin then hs else hs.mapValues ReverseBins) shapes

/-- Writes of a histogram map followed by a yield vector under one directory. -/
def writeAll (dir_h dir_y : String) (shapes : SMap TH1F) (yields : List RooRealVar) : TFile :=
  shapes.map (fun e => (dir_h ++ e.1, Obj.hist e.2)) ++
    yields.map (fun y => (dir_y ++ y.name, Obj.yield y))

/-- The category-summed pre-fit block (lines 263-305). -/
def prefitTotal (E : Engine) (o : Options) (cmb cmb_card : CombineHarvester) : TFile :=
  let s0 : SMap TH1F := SMap.assign [] "data_obs" (E.GetObservedShape cmb)
  let y0 : List RooRealVar :=
    [⟨"yield_data_obs", E.GetObservedRate cmb, E.sqrt (E.GetObservedRate cmb)⟩]
  let s1 := s0.assign "TotalBkg" (E.GetShapeWithUncertainty cmb.backgrounds)
  let y1 := y0 ++ [⟨"yield_TotalBkg", E.GetRate cmb.backgrounds,
    E.GetUncertainty cmb.backgrounds⟩]
  let s2 := s1.assign "TotalSig" (E.GetShapeWithUncertainty cmb.signals)
  let y2 := y1 ++ [⟨"yield_TotalSig", E.GetRate cmb.signals, E.GetUncertainty cmb.signals⟩]
  let s3 := s2.assign "TotalProcs" (E.GetShapeWithUncertainty cmb)
  let y3 := y2 ++ [⟨"yield_TotalProcs", E.GetRate cmb, E.GetUncertainty cmb⟩]
  let s4 := restoreAll E o (E.GetObservedShape cmb_card) s3
  writeAll "prefit/" "prefit/" s4 y3

/-- One individual process of a category, pre-fit (lines 318-331). -/
def prefitProc (E : Engine) (o : Options) (cmb_bin : CombineHarvester)
    (st : SMap TH1F × List RooRealVar) (proc : String) : SMap TH1F × List RooRealVar :=
  let sel := cmb_bin.process E [proc]
  (st.1.assign proc (if o.skip_proc_errs then E.GetShape sel else E.GetShapeWithUncertainty sel),
   st.2 ++ [⟨"yield_" ++ proc, E.GetRate sel, E.GetUncertainty sel⟩])

/-- One merged group of a category, pre-fit (lines 332-352); a group whose
pattern selects no process is skipped. -/
def prefitMerged (E : Engine) (o : Options) (cmb_bin : CombineHarvester)
    (st : SMap TH1F × List RooRealVar) (iter : String × String) :
    SMap TH1F × List RooRealVar :=
  let proc := iter.1
  let cmb_proc := cmb_bin.process E [iter.2]
  if cmb_proc.process_set.length = 0 then st
  else
    (st.1.assign proc
      (if o.skip_proc_errs then E.GetShape cmb_proc else E.GetShapeWithUncertainty cmb_proc),
     st.2 ++ [⟨"yield_" ++ proc, E.GetRate cmb_proc, E.GetUncertainty cmb_proc⟩])

/-- Evaluation of one category in the pre-fit state (lines 307-389): the
histogram map `pre_shapes[bin]`, starting from its previous content, and the
yield vector `pre_yields[bin]`. -/
def prefitBin (E : Engine) (o : Options) (merged_procs : SMap String)
    (cmb cmb_card : CombineHarvester) (shapes0 : SMap TH1F) (bin : String) :
    SMap TH1F × List RooRealVar :=
  let cmb_bin := cmb.bin E [bin]
  let st0 : SMap TH1F × List RooRealVar :=
    (shapes0.assign "data_obs" (E.GetObservedShape cmb_bin),
     [⟨"yield_data_obs", E.GetObservedRate cmb_bin, E.sqrt (E.GetObservedRate cmb_bin)⟩])
  let st1 := cmb_bin.process_set.foldl (prefitProc E o cmb_bin) st0
  let st2 := merged_procs.foldl (prefitMerged E o cmb_bin) st1
  let s3 := st2.1.assign "TotalBkg" (E.GetShapeWithUncertainty cmb_bin.backgrounds)
  let y3 := st2.2 ++ [⟨"yield_TotalBkg", E.GetRate cmb_bin.backgrounds,
    E.GetUncertainty cmb_bin.backgrounds⟩]
  let s4 := s3.assign "TotalSig" (E.GetShapeWithUncertainty cmb_bin.signals)
  let y4 := y3 ++ [⟨"yield_TotalSig", E.GetRate cmb_bin.signals,
    E.GetUncertainty cmb_bin.signals⟩]
  let s5 := s4.assign "TotalProcs" (E.GetShapeWithUncertainty cmb_bin)
  let y5 := y4 ++ [⟨"yield_TotalProcs", E.GetRate cmb_bin, E.GetUncertainty cmb_bin⟩]
  let s6 := restoreAll E o (E.GetObservedShape (cmb_card.bin E [bin])) s5
  (reverseAll o bin s6, y5)

/-- The writes of one category in the pre-fit state (lines 390-398). -/
def prefitWrites (bin : String) (r : SMap TH1F × List RooRealVar) : TFile :=
  writeAll (bin ++ "_prefit/") (bin ++ "_prefit/") r.1 r.2

/-- The pre-fit loop over the categories (lines 306-399), carrying `pre_shapes`
and the output file. -/
def prefitLoop (E : Engine) (o : Options) (merged_procs : SMap String)
    (cmb cmb_card : CombineHarvester) (bins : List String)
    (st : SMap (SMap TH1F) × TFile) : SMap (SMap TH1F) × TFile :=
  bins.foldl
    (fun st bin =>
      let r := prefitBin E o merged_procs cmb cmb_card ((st.1.find bin).getD []) bin
      (st.1.assign bin r.1, st.2 ++ prefitWrites bin r))
    st

/-- The ratio printed in the tables of relative background uncertainty
(lines 411 and 635). -/
def relUncert (rate err : ℚ) : ℚ := if rate > 0 then err / rate else 0

/-- The pre-fit table of relative background uncertainties (lines 406-412). -/
def prefitFactors (E : Engine) (cmb : CombineHarvester) (bins : List String) :
    List (String × ℚ) :=
  bins.map (fun bin =>
    (bin, relUncert (E.GetRate (cmb.bin E [bin]).backgrounds)
      (E.GetUncertainty (cmb.bin E [bin]).backgrounds)))

/-- The pre-fit part of `main` (lines 262-414), run when pre-fit is not
skipped: the category-summed block, the loop over the categories, and the
printed table. -/
def prefit (E : Engine) (o : Options) (merged_procs : SMap String)
    (cmb cmb_card : CombineHarvester) (bins : List String) :
    SMap (SMap TH1F) × TFile × List (String × ℚ) :=
  let f0 : TFile := if o.total_shapes then prefitTotal E o cmb cmb_card else []
  let st := prefitLoop E o merged_procs cmb cmb_card bins ([], f0)
  (st.1, st.2, if o.factors then prefitFactors E cmb bins else [])

/-! ## Post-fit evaluation (lines 418-658) -/

/-- Histogram with uncertainty in the post-fit state: by sampling the fit
covariance when `sampling` is set, by linear propagation otherwise. -/
def postShape (E : Engine) (o : Options) (res : RooFitResult) (c : CombineHarvester) : TH1F :=
  if o.sampling then E.GetShapeWithUncertaintySampled c res o.samples
  else E.GetShapeWithUncertainty c

/-- Yield uncertainty in the post-fit state, by the same choice. -/
def postUncert (E : Engine) (o : Options) (res : RooFitResult) (c : CombineHarvester) : ℚ :=
  if o.sampling then E.GetUncertaintySampled c res o.samples else E.GetUncertainty c

/-- The category-summed post-fit block (lines 434-490). -/
def postfitTotal (E : Engine) (o : Options) (res : RooFitResult)
    (cmb cmb_card : CombineHarvester) : TFile :=
  let s0 : SMap TH1F := SMap.assign [] "data_obs" (E.GetObservedShape cmb)
  let y0 : List RooRealVar :=
    [⟨"yield_data_obs", E.GetObservedRate cmb, E.sqrt (E.GetObservedRate cmb)⟩]
  let cmb_bkgs := cmb.backgrounds
  let cmb_sigs := cmb.signals
  let s1 := s0.assign "TotalBkg" (postShape E o res cmb_bkgs)
  let y1 := y0 ++ [⟨"yield_TotalBkg", E.GetRate cmb_bkgs, postUncert E o res cmb_bkgs⟩]
  let s2 := s1.assign "TotalSig" (postShape E o res cmb_sigs)
  let y2 := y1 ++ [⟨"yield_TotalSig", E.GetRate cmb_sigs, postUncert E o res cmb_sigs⟩]
  let s3 := s2.assign "TotalProcs" (postShape E o res cmb)
  let y3 := y2 ++ [⟨"yield_TotalProcs", E.GetRate cmb, postUncert E o res cmb⟩]
  let s4 := restoreAll E o (E.GetObservedShape cmb_card) s3
  writeAll "postfit/" "prefit/" s4 y3

/-- One individual process of a category, post-fit (lines 499-517). -/
def postfitProc (E : Engine) (o : Options) (res : RooFitResult) (cmb_bin : CombineHarvester)
    (st : SMap TH1F × List RooRealVar) (proc : String) : SMap TH1F × List RooRealVar :=
  let cmb_proc := cmb_bin.process E [proc]
  (st.1.assign proc (if o.skip_proc_errs then E.GetShape cmb_proc else postShape E o res cmb_proc),
   st.2 ++ [⟨"yield_" ++ proc, E.GetRate cmb_proc, postUncert E o res cmb_proc⟩])

/-- One merged group of a category, post-fit (lines 518-540). -/
def postfitMerged (E : Engine) (o : Options) (res : RooFitResult) (cmb_bin : CombineHarvester)
    (st : SMap TH1F × List RooRealVar) (iter : String × String) :
    SMap TH1F × List RooRealVar :=
  let proc := iter.1
  let cmb_proc := cmb_bin.process E [iter.2]
  if cmb_proc.process_set.length = 0 then st
  else
    (st.1.assign proc
      (if o.skip_proc_errs then E.GetShape cmb_proc else postShape E o res cmb_proc),
     st.2 ++ [⟨"yield_" ++ proc, E.GetRate cmb_proc, postUncert E o res cmb_proc⟩])

/-- Evaluation of one category in the post-fit state (lines 494-540 and
545-604): the histogram map `post_shapes[bin]` and the yield vector
`post_yields[bin]`. -/
def postfitBin (E : Engine) (o : Options) (res : RooFitResult) (merged_procs : SMap String)
    (cmb cmb_card : CombineHarvester) (shapes0 : SMap TH1F) (bin : String) :
    SMap TH1F × List RooRealVar :=
  let cmb_bin := cmb.bin E [bin]
  let st0 : SMap TH1F × List RooRealVar :=
    (shapes0.assign "data_obs" (E.GetObservedShape cmb_bin),
     [⟨"yield_data_obs", E.GetObservedRate cmb_bin, E.sqrt (E.GetObservedRate cmb_bin)⟩])
  let st1 := cmb_bin.process_set.foldl (postfitProc E o res cmb_bin) st0
  let st2 := merged_procs.foldl (postfitMerged E o res cmb_bin) st1
  let cmb_bkgs := cmb_bin.backgrounds
  let cmb_sigs := cmb_bin.signals
  let s3 := st2.1.assign "TotalBkg" (postShape E o res cmb_bkgs)
  let y3 := st2.2 ++ [⟨"yield_TotalBkg", E.GetRate cmb_bkgs, postUncert E o res cmb_bkgs⟩]
  let s4 := s3.assign "TotalSig" (postShape E o res cmb_sigs)
  let y4 := y3 ++ [⟨"yield_TotalSig", E.GetRate cmb_sigs, postUncert E o res cmb_sigs⟩]
  let s5 := s4.assign "TotalProcs" (postShape E o res cmb_bin)
  let y5 := y4 ++ [⟨"yield_TotalProcs", E.GetRate cmb_bin, postUncert E o res cmb_bin⟩]
  let s6 := restoreAll E o (E.GetObservedShape (cmb_card.bin E [bin])) s5
  (reverseAll o bin s6, y5)

/-- State of the post-fit loop: `post_shapes`, `post_yield_cov`,
`post_yield_cor` and the output file. -/
structure PostState where
  post_shapes : SMap (SMap TH1F)
  post_yield_cov : SMap TH2F
  post_yield_cor : SMap TH2F
  outfile : TFile

/-- The writes of one category in the post-fit state (lines 606-621): its
histograms and yields, then every matrix stored so far. -/
def postfitWrites (bin : String) (r : SMap TH1F × List RooRealVar)
    (cov cor : SMap TH2F) : TFile :=
  writeAll (bin ++ "_postfit/") (bin ++ "_postfit/") r.1 r.2 ++
    cov.map (fun e => (e.1 ++ "_cov", Obj.matrix e.2)) ++
    cor.map (fun e => (e.1 ++ "_cor", Obj.matrix e.2))

/-- One pass of the post-fit loop over the categories (lines 493-623). -/
def postfitStep (E : Engine) (o : Options) (res : RooFitResult) (merged_procs : SMap String)
    (cmb cmb_card : CombineHarvester) (st : PostState) (bin : String) : PostState :=
  let r := postfitBin E o res merged_procs cmb cmb_card ((st.post_shapes.find bin).getD []) bin
  let cov := if o.sampling && o.covariance then
      st.post_yield_cov.assign bin (E.GetRateCovariance (cmb.bin E [bin]) res o.samples)
    else st.post_yield_cov
  let cor := if o.sampling && o.covariance then
      st.post_yield_cor.assign bin (E.GetRateCorrelation (cmb.bin E [bin]) res o.samples)
    else st.post_yield_cor
  { post_shapes := st.post_shapes.assign bin r.1
    post_yield_cov := cov
    post_yield_cor := cor
    outfile := st.outfile ++ postfitWrites bin r cov cor }

/-- The post-fit table of relative background uncertainties (lines 629-636). -/
def postfitFactors (E : Engine) (o : Options) (res : RooFitResult) (cmb : CombineHarvester)
    (bins : List String) : List (String × ℚ) :=
  bins.map (fun bin =>
    (bin, relUncert (E.GetRate (cmb.bin E [bin]).backgrounds)
      (postUncert E o res (cmb.bin E [bin]).backgrounds)))

/-- The ratio printed in the table of post/pre scale factors (lines 653-654). -/
def scaleFactor (pre post : TH1F) : ℚ :=
  if pre.Integral > 0 then post.Integral / pre.Integral else 1

/-- `m[bin][proc]` on a map of maps; a missing entry is default-constructed. -/
def shapeAt (m : SMap (SMap TH1F)) (bin proc : String) : TH1F :=
  (((m.find bin).getD []).find proc).getD TH1F.default

/-- The table of post/pre scale factors (lines 645-656). -/
def scaleFactors (E : Engine) (cmb : CombineHarvester) (bins : List String)
    (pre_shapes post_shapes : SMap (SMap TH1F)) : List (String × String × ℚ) :=
  bins.flatMap (fun bin =>
    (cmb.bin E [bin]).process_set.map (fun proc =>
      (bin, proc, scaleFactor (shapeAt pre_shapes bin proc) (shapeAt post_shapes bin proc))))

/-- The post-fit part of `main` after the fit result is loaded (lines
421-657): `cmb` already holds the post-fit parameters. -/
def postfit (E : Engine) (o : Options) (res : RooFitResult) (merged_procs : SMap String)
    (cmb cmb_card : CombineHarvester) (bins : List String)
    (pre_shapes : SMap (SMap TH1F)) (outfile : TFile) :
    TFile × List (String × ℚ) × List (String × String × ℚ) :=
  let f0 : TFile := if o.total_shapes then outfile ++ postfitTotal E o res cmb cmb_card else outfile
  let st := bins.foldl (postfitStep E o res merged_procs cmb cmb_card) ⟨[], [], [], f0⟩
  (st.outfile,
   if o.factors then postfitFactors E o res cmb bins else [],
   if o.factors && o.postfit then scaleFactors E cmb bins pre_shapes st.post_shapes else [])

/-! ## `main` -/

/-- The filter of line 225: a process with no histogram, no dataset and no
density function. -/
def no_shape (proc : Process) : Bool := proc.shape.isNone && !proc.data && !proc.pdf

/-- The part of `main` from the creation of the output file on (lines
243-661). -/
def produce (E : Engine) (W : World) (o : Options) (merged_procs : SMap String)
    (cmb cmb_card : CombineHarvester) (bins : List String) : Run :=
  let pre : SMap (SMap TH1F) × TFile × List (String × ℚ) :=
    if !o.skip_prefit then prefit E o merged_procs cmb cmb_card bins else ([], [], [])
  if o.postfit then
    match W.OpenFromTFile o.fitresult with
    | .error e => ⟨some pre.2.1, ⟨pre.2.2, [], []⟩, .error e⟩
    | .ok res =>
      let post := postfit E o res merged_procs (E.UpdateParameters cmb res) cmb_card bins
        pre.1 pre.2.1
      ⟨some post.1, ⟨pre.2.2, post.2.1, post.2.2⟩, .ok 0⟩
  else ⟨some pre.2.1, ⟨pre.2.2, [], []⟩, .ok 0⟩

/-- The program.  The test of `sampling` and `postfit` (lines 116-119) reads
the option variables before the command line is parsed into them (lines
136-137), that is, at their initial values. -/
def main (E : Engine) (W : World) (cl : CommandLine) : Run :=
  if Options.initial.sampling && !Options.initial.postfit then
    ⟨none, Console.empty,
      .error (Error.logic_error "Can't sample the fit covariance matrix for pre-fit!")⟩
  else if cl.help then ⟨none, Console.empty, .ok 1⟩
  else
    let o := cl.parsed
    match W.workspace o.workspace with
    | none =>
      ⟨none, Console.empty,
        .error (Error.runtime_error "Could not locate workspace in input file")⟩
    | some ws =>
      match freeze E (ws o.data) o.freeze_arg with
      | .error e => ⟨none, Console.empty, .error e⟩
      | .ok cmb =>
        let merged_procs := parseMergeProcs o.input_merge_procs_
        let cmb_card :=
          if o.datacard ≠ "" then W.ParseDatacard o.datacard o.mass
          else CombineHarvester.empty
        let cmb := cmb.FilterProcs no_shape
        let bins := if o.bins_.length = 0 then cmb.bin_set else o.bins_
        produce E W o merged_procs cmb cmb_card bins

/-! ## Predicates used to state the properties of the freeze block -/

/-- The first part of an item, `parts[0]`. -/
def itemExpr (item : String) : String := (split item '=').getD 0 ""

/-- The regular expression of an `rgx{...}` item (line 173). -/
def itemRegex (item : String) : String :=
  substr (itemExpr item) 4 ((itemExpr item).data.length - 5)

/-- Whether an item selects the parameter called `name`: an `rgx{...}` item
when its regular expression matches the whole name, a plain item when its
name is `name`. -/
def itemSelects (E : Engine) (item name : String) : Bool :=
  if isRegexItem (itemExpr item) then E.regex_match (itemRegex item) name
  else decide (name = itemExpr item)

/-- Whether an item selects at least one parameter of the model. -/
def itemMatches (E : Engine) (cmb : CombineHarvester) (item : String) : Bool :=
  cmb.params.any (fun p => itemSelects E item p.name)

/-- The parsed VALUE of an item of the form `NAME=VALUE`; `none` for an
item that is not of this form. -/
def itemValue (E : Engine) (item : String) : Option ℚ :=
  if (split item '=').length = 2 then E.lexical_cast ((split item '=').getD 1 "") else none

/-- Every item of the form `NAME=VALUE` carries a number. -/
def valuesWellFormed (E : Engine) (items : List String) : Prop :=
  ∀ item ∈ items, (split item '=').length = 2 → (itemValue E item).isSome = true

/-- What one item does to one parameter: a selected parameter is frozen and
takes the item's VALUE when there is one. -/
def itemEffect (E : Engine) (item : String) (p : Parameter) : Parameter :=
  if itemSelects E item p.name then
    { p with val := (itemValue E item).getD p.val, frozen := true }
  else p

/-- What the items of a directive, in order, do to one parameter. -/
def itemsEffect (E : Engine) (items : List String) (p : Parameter) : Parameter :=
  items.foldl (fun q item => itemEffect E item q) p

/-- The VALUE given by the last of the items that selects `name` and has
one. -/
def lastValue (E : Engine) (items : List String) (name : String) : Option ℚ :=
  items.foldl
    (fun acc item =>
      if itemSelects E item name then
        (match itemValue E item with
         | some v => some v
         | none => acc)
      else acc)
    none

/-! ## An engine and a model for evaluating the program on examples -/

/-- Matcher for regular expressions made of literal characters, `.` and a
postfix `*`, matching the whole subject; `fuel` bounds the number of steps. -/
def miniMatch : Nat → List Char → List Char → Bool
  | 0, _, _ => false
  | _ + 1, [], s => s.isEmpty
  | fuel + 1, c :: '*' :: p, s =>
    miniMatch fuel p s ||
      (match s with
       | [] => false
       | x :: xs => (c = '.' || c = x) && miniMatch fuel (c :: '*' :: p) xs)
  | _ + 1, _ :: _, [] => false
  | fuel + 1, c :: p, x :: xs => (c = '.' || c = x) && miniMatch fuel p xs

/-- Value of a string of decimal digits; `none` for anything else. -/
def parseDigits : List Char → Option Nat
  | [] => none
  | cs =>
    cs.foldl
      (fun acc c =>
        match acc with
        | none => none
        | some n => if c.isDigit then some (10 * n + (c.toNat - '0'.toNat)) else none)
      (some 0)

/-- Bin-wise sum of the contents of two histograms with the binning of the
first, with zero uncertainty. -/
def addShapes (a b : TH1F) : TH1F :=
  { a with bins := List.zipWith (fun x y => (x.1 + y.1, (0 : ℚ))) a.bins b.bins }

/-- Modelled from the spec: the evaluators of section 4.3 for a model without
nuisance parameters.  A yield is the sum of the rates of the selected
processes, a shape is the bin-wise sum of their histograms, and every
uncertainty is zero (no free parameter); sampling has nothing to vary
and returns the same results.  `sqrt` is exact on squares. -/
def specEngine : Engine where
  regex_match := fun r s => miniMatch (r.data.length + s.data.length + 1) r.data s.data
  lexical_cast := fun s => (parseDigits s.data).map (fun n => (n : ℚ))
  sqrt := fun x => (Nat.sqrt x.num.toNat : ℚ) / (Nat.sqrt x.den : ℚ)
  GetObservedShape := fun c => (c.obs.map (fun o => o.shape)).headD TH1F.default
  GetObservedRate := fun c => (c.obs.map (fun o => o.rate)).sum
  GetShape := fun c =>
    match c.procs.filterMap (fun p => p.shape) with
    | [] => TH1F.default
    | h :: hs => hs.foldl addShapes (addShapes h { h with bins := h.bins.map (fun _ => (0, 0)) })
  GetShapeWithUncertainty := fun c =>
    match c.procs.filterMap (fun p => p.shape) with
    | [] => TH1F.default
    | h :: hs => hs.foldl addShapes (addShapes h { h with bins := h.bins.map (fun _ => (0, 0)) })
  GetShapeWithUncertaintySampled := fun c _ _ =>
    match c.procs.filterMap (fun p => p.shape) with
    | [] => TH1F.default
    | h :: hs => hs.foldl addShapes (addShapes h { h with bins := h.bins.map (fun _ => (0, 0)) })
  GetRate := fun c => (c.procs.map (fun p => p.rate)).sum
  GetUncertainty := fun _ => 0
  GetUncertaintySampled := fun _ _ _ => 0
  GetRateCovariance := fun c _ _ => ⟨c.procs.map (fun _ => c.procs.map (fun _ => 0))⟩
  GetRateCorrelation := fun c _ _ => ⟨c.procs.map (fun _ => c.procs.map (fun _ => 0))⟩
  UpdateParameters := fun c res =>
    { c with
      params := c.params.map (fun p =>
        match res.floatPars.find? (fun e => decide (e.1 = p.name)) with
        | some e => { p with val := e.2 }
        | none => p) }
  RestoreBinning := fun h ref => { h with edges := ref.edges }

/-- A two-bin histogram on the edges 0, 1, 2 with the given contents. -/
def hist2 (a b : ℚ) : TH1F := ⟨[0, 1, 2], (0, 0), [(a, 0), (b, 0)], (0, 0)⟩

/-- The model of the scenario of section 8: category `cat1` with the signal
`sig` of rate 5 and the backgrounds `bkg1` of rate 10 and `bkg2` of rate 20,
and two parameters. -/
def cat1Model : CombineHarvester where
  obs := [⟨"cat1", 36, hist2 16 20⟩]
  procs :=
    [⟨"cat1", "sig", true, 5, some (hist2 2 3), false, false⟩,
     ⟨"cat1", "bkg1", false, 10, some (hist2 4 6), false, false⟩,
     ⟨"cat1", "bkg2", false, 20, some (hist2 10 10), false, false⟩]
  params := [⟨"r", 1, false⟩, ⟨"lumi", 0, false⟩]

/-- The example model after the directive `r=3,rgx{lu.*}`. -/
def cat1Frozen : CombineHarvester :=
  { cat1Model with params := [⟨"r", 3, true⟩, ⟨"lumi", 0, true⟩] }

/-- The inputs of the examples: the workspace file `ws.root` holds
`cat1Model`, and there is no fit result file. -/
def cat1World : World where
  workspace := fun path => if path = "ws.root" then some (fun _ => cat1Model) else none
  ParseDatacard := fun _ _ => CombineHarvester.empty
  OpenFromTFile := fun _ => .error (Error.runtime_error "could not open fit result")

/-- Options of a pre-fit-only run on `ws.root`. -/
def cat1Options : Options :=
  { Options.initial with workspace := "ws.root", output := "out.root" }

/-- Options of a run on `ws.root` with `--sampling` and without `--postfit`. -/
def samplingOnlyOptions : Options := { cat1Options with sampling := true }

/-- Options of a run on `ws.root` with `--postfit` and the fit result
`fit.root`. -/
def postfitOptions : Options :=
  { cat1Options with postfit := true, fitresult := "fit.root" }

/-- Options of a run with `--postfit` and `--total-shapes`. -/
def totalShapesOptions : Options := { postfitOptions with total_shapes := true }

/-- The inputs of the examples with a fit result in `fit.root`. -/
def cat1WorldFit : World :=
  { cat1World with OpenFromTFile := fun _ => .ok ⟨[("r", 2)], [[1]]⟩ }

/-- The paths written to the output file, in order; empty when there is no
output file. -/
def Run.keys (r : Run) : List String := (r.outfile.getD []).map Prod.fst

/-! ## Per-histogram views of the rebinning and reversal loops -/

/-- What the loop over `reverse_bins_` (lines 383-389, 597-604) does to one
histogram of the category `bin`: one `ReverseBins` per entry equal to `bin`. -/
def reverseOne (reverse_bins_ : List String) (bin : String) (h : TH1F) : TH1F :=
  reverse_bins_.foldl (fun h' rbin => if rbin ≠ bin then h' else ReverseBins h') h

/-- What the rebinning loop (lines 376-381, 587-592) does to one histogram. -/
def restoreOne (E : Engine) (o : Options) (ref : TH1F) (h : TH1F) : TH1F :=
  if o.datacard ≠ "" then E.RestoreBinning h ref else h

/-- What becomes of an evaluated histogram of the category `bin` before it is
written: rebinning to the datacard reference, then the reversals. -/
def finishHist (E : Engine) (o : Options) (cmb_card : CombineHarvester) (bin : String)
    (h : TH1F) : TH1F :=
  reverseOne o.reverse_bins_ bin
    (restoreOne E o (E.GetObservedShape (cmb_card.bin E [bin])) h)

/-- The paths under which matrices are written to a file, in order. -/
def matrixKeys (f : TFile) : List String :=
  f.filterMap (fun r =>
    match r.2 with
    | Obj.matrix _ => some r.1
    | _ => none)

/-! ## Further examples -/

/-- Modelled from the spec: the evaluators of section 4.3 for a model with one
free parameter, a normalisation uncertainty of 10 percent shared by all
processes.  Linear propagation gives every bin of a shape with uncertainty
the error `content / 10` and every yield the uncertainty `rate / 10`; the
nominal shape carries no per-bin uncertainty. -/
def lnNEngine : Engine :=
  { specEngine with
    GetShapeWithUncertainty := fun c =>
      { specEngine.GetShape c with
        bins := (specEngine.GetShape c).bins.map (fun b => (b.1, b.1 / 10)) }
    GetShapeWithUncertaintySampled := fun c _ _ =>
      { specEngine.GetShape c with
        bins := (specEngine.GetShape c).bins.map (fun b => (b.1, b.1 / 10)) }
    GetUncertainty := fun c => specEngine.GetRate c / 10
    GetUncertaintySampled := fun c _ _ => specEngine.GetRate c / 10 }

/-- A model with the two categories `cat1` and `cat2`. -/
def twoCatModel : CombineHarvester where
  obs := [⟨"cat1", 36, hist2 16 20⟩, ⟨"cat2", 9, hist2 4 5⟩]
  procs :=
    [⟨"cat1", "sig", true, 5, some (hist2 2 3), false, false⟩,
     ⟨"cat1", "bkg1", false, 10, some (hist2 4 6), false, false⟩,
     ⟨"cat2", "sig", true, 1, some (hist2 1 0), false, false⟩,
     ⟨"cat2", "bkg1", false, 8, some (hist2 3 5), false, false⟩]
  params := [⟨"r", 1, false⟩]

/-- The inputs of the two-category examples: `ws2.root` holds `twoCatModel`
and `fit.root` a fit result. -/
def twoCatWorld : World where
  workspace := fun path => if path = "ws2.root" then some (fun _ => twoCatModel) else none
  ParseDatacard := fun _ _ => CombineHarvester.empty
  OpenFromTFile := fun _ => .ok ⟨[("r", 2)], [[1]]⟩

/-- Options of a run with `--postfit --sampling --covariance`. -/
def covarianceOptions : Options :=
  { postfitOptions with sampling := true, covariance := true }

/-- Options of a run on `ws2.root` with `--postfit --sampling --covariance`. -/
def twoCatOptions : Options := { covarianceOptions with workspace := "ws2.root" }

/-- Options of a run with `--postfit --skip-prefit --print`. -/
def printOptions : Options :=
  { postfitOptions with factors := true, skip_prefit := true }

/-- Options of a run with `--skip-proc-errs`. -/
def skipErrsOptions : Options := { cat1Options with skip_proc_errs := true }

/-- Options of a post-fit run with the given `--reverse-bins` list. -/
def reverseOptions (l : List String) : Options := { postfitOptions with reverse_bins_ := l }

/-- The object written under a path, the first one if there are several. -/
def Run.lookup (r : Run) (key : String) : Option Obj := (r.outfile.getD []).lookup key

/-! # Theorems -/

/-! ## Lemmas on `ReverseBins` -/

theorem copyBins_aux (get : Nat → ℚ) (k : Nat) (init : List ℚ) :
    ∀ j, ((List.range k).foldl (fun buf i => buf.set i (get (i + 1))) init)[j]? =
      if j < k ∧ j < init.length then some (get (j + 1)) else init[j]? := by
  induction k with
  | zero => intro j; simp
  | succ k ih =>
    intro j
    rw [List.range_succ, List.foldl_append]
    simp only [List.foldl_cons, List.foldl_nil]
    have hlen : ((List.range k).foldl (fun buf i => buf.set i (get (i + 1))) init).length
        = init.length := by
      clear ih
      induction k with
      | zero => simp
      | succ k ih2 =>
        rw [List.range_succ, List.foldl_append]
        simp [ih2]
    rw [List.getElem?_set]
    by_cases hjk : k = j
    · subst hjk
      simp only [hlen, if_true]
      by_cases hl : k < init.length
      · simp [hl]
      · simp [hl]
        omega
    · simp only [hjk, if_false]
      rw [ih j]
      have : (j < k + 1) ↔ (j < k) := by omega
      simp [this]

theorem copyBins_getD (n : Nat) (get : Nat → ℚ) (j : Nat) (hj : j < n) :
    (copyBins n get).getD j 0 = get (j + 1) := by
  unfold copyBins
  rw [List.getD_eq_getElem?_getD, copyBins_aux get n]
  simp [hj]

theorem TH1F.set_step (h : TH1F) (i : Nat) (hi : i < h.bins.length) (c e : ℚ) :
    (h.SetBinContent (h.GetNbinsX - i) c).SetBinError (h.GetNbinsX - i) e =
      { h with bins := h.bins.set (h.bins.length - 1 - i) (c, e) } := by
  have h1 : ¬ (h.bins.length - i = 0) := by omega
  have h2 : h.bins.length - i ≤ h.bins.length := by omega
  have h3 : h.bins.length - i - 1 = h.bins.length - 1 - i := by omega
  have h4 : h.bins.length - 1 - i < h.bins.length := by omega
  simp [TH1F.SetBinContent, TH1F.SetBinError, TH1F.setCell, TH1F.GetNbinsX, h1, h2, h3,
    List.getElem?_set, h4]

theorem storeLoop_eq (c e : Nat → ℚ) (k : Nat) (h : TH1F) (hk : k ≤ h.bins.length) :
    (List.range k).foldl
        (fun h' i => (h'.SetBinContent (h'.GetNbinsX - i) (c i)).SetBinError
          (h'.GetNbinsX - i) (e i)) h =
      { h with
        bins := (List.range k).foldl
                  (fun b i => b.set (h.bins.length - 1 - i) (c i, e i)) h.bins } := by
  induction k with
  | zero => simp
  | succ k ih =>
    rw [List.range_succ, List.foldl_append, List.foldl_append, ih (by omega)]
    simp only [List.foldl_cons, List.foldl_nil]
    have hlen : ((List.range k).foldl
        (fun b i => b.set (h.bins.length - 1 - i) (c i, e i)) h.bins).length
          = h.bins.length := by
      clear ih hk
      induction k with
      | zero => simp
      | succ k ih2 =>
        rw [List.range_succ, List.foldl_append]
        simp [ih2]
    rw [TH1F.set_step _ _ (by simp only [hlen]; omega)]
    simp only [hlen]

theorem storeLoop_getElem (c e : Nat → ℚ) (b : List (ℚ × ℚ)) (k : Nat) (hk : k ≤ b.length) :
    ∀ j, ((List.range k).foldl (fun l i => l.set (b.length - 1 - i) (c i, e i)) b)[j]? =
      if b.length - k ≤ j ∧ j < b.length then
        some (c (b.length - 1 - j), e (b.length - 1 - j))
      else b[j]? := by
  induction k with
  | zero =>
    intro j
    have : ¬ (b.length - 0 ≤ j ∧ j < b.length) := by omega
    rw [if_neg this]
    simp
  | succ k ih =>
    intro j
    rw [List.range_succ, List.foldl_append]
    simp only [List.foldl_cons, List.foldl_nil]
    have hlen : ((List.range k).foldl
        (fun l i => l.set (b.length - 1 - i) (c i, e i)) b).length = b.length := by
      clear ih hk
      induction k with
      | zero => simp
      | succ k ih2 =>
        rw [List.range_succ, List.foldl_append]
        simp [ih2]
    rw [List.getElem?_set, ih (by omega) j, hlen]
    by_cases hj : b.length - 1 - k = j
    · have h1 : j < b.length := by omega
      have h2 : b.length - (k + 1) ≤ j ∧ j < b.length := by omega
      have h3 : b.length - 1 - j = k := by omega
      have h0 : b.length - 1 - k < b.length := by omega
      rw [if_pos hj, if_pos h0, if_pos h2, h3]
    · rw [if_neg hj]
      by_cases h5 : b.length - k ≤ j ∧ j < b.length
      · have h6 : b.length - (k + 1) ≤ j ∧ j < b.length := by omega
        rw [if_pos h5, if_pos h6]
      · have h6 : ¬ (b.length - (k + 1) ≤ j ∧ j < b.length) := by omega
        rw [if_neg h5, if_neg h6]

/-- `ReverseBins` leaves edges and the under/overflow cells alone and stores
the regular cells in reverse order. -/
theorem ReverseBins_eq (h : TH1F) : ReverseBins h = { h with bins := h.bins.reverse } := by
  unfold ReverseBins
  simp only []
  rw [storeLoop_eq _ _ _ h (by simp [TH1F.GetNbinsX])]
  congr 1
  apply List.ext_getElem?
  intro j
  have hlen : h.GetNbinsX = h.bins.length := rfl
  rw [hlen, storeLoop_getElem _ _ _ _ (le_refl _)]
  by_cases hj : j < h.bins.length
  · have h1 : h.bins.length - h.bins.length ≤ j ∧ j < h.bins.length := by omega
    have h2 : h.bins.length - 1 - j < h.bins.length := by omega
    rw [if_pos h1, copyBins_getD _ _ _ h2, copyBins_getD _ _ _ h2,
      List.getElem?_reverse hj]
    have h3 : ¬ (h.bins.length - 1 - j + 1 = 0) := by omega
    have h4 : h.bins.length - 1 - j + 1 ≤ h.bins.length := by omega
    simp [TH1F.GetBinContent, TH1F.GetBinError, TH1F.cell, h3, h4,
      List.getD_eq_getElem?_getD, List.getElem?_eq_getElem h2]
  · have h1 : ¬ (h.bins.length - h.bins.length ≤ j ∧ j < h.bins.length) := by omega
    rw [if_neg h1]
    rw [List.getElem?_eq_none (by omega), List.getElem?_eq_none (by simp; omega)]


/-! ## Lemmas on the freeze block -/

/-- What a matching item does to a selected parameter. -/
theorem itemEffect_of_selects (E : Engine) (item : String) (p : Parameter)
    (h : itemSelects E item p.name = true) :
    itemEffect E item p = { p with val := (itemValue E item).getD p.val, frozen := true } := by
  simp [itemEffect, h]

theorem itemEffect_name (E : Engine) (item : String) (p : Parameter) :
    (itemEffect E item p).name = p.name := by
  unfold itemEffect
  split <;> rfl

theorem freezeParameter_eq (E : Engine) (item : String) (cmb : CombineHarvester)
    (name : String) :
    freezeParameter E (split item '=') cmb name =
      if (split item '=').length = 2 ∧ itemValue E item = none then
        .error Error.bad_lexical_cast
      else
        .ok (cmb.modifyParameter name
          (fun p => { p with val := (itemValue E item).getD p.val, frozen := true })) := by
  unfold freezeParameter itemValue
  by_cases hlen : (split item '=').length = 2
  · simp only [hlen, if_true, true_and]
    cases hc : E.lexical_cast ((split item '=').getD 1 "") with
    | none => simp
    | some v => simp
  · simp only [hlen, if_false, false_and]
    simp

/-- The regular-expression loop when a VALUE, if present, is a number. -/
theorem freezeRegexLoop_ok (E : Engine) (item : String) (r : String)
    (hv : ¬ ((split item '=').length = 2 ∧ itemValue E item = none)) :
    ∀ (ps : List String) (cmb : CombineHarvester) (m : Bool),
      freezeRegexLoop E (split item '=') r ps (cmb, m) =
        .ok ({ cmb with
               params := cmb.params.map (fun p =>
                 if ps.any (fun n => E.regex_match r n && decide (n = p.name)) then
                   { p with val := (itemValue E item).getD p.val, frozen := true }
                 else p) },
             m || ps.any (fun n => E.regex_match r n)) := by
  intro ps
  induction ps with
  | nil =>
    intro cmb m
    simp [freezeRegexLoop]
  | cons n rest ih =>
    intro cmb m
    unfold freezeRegexLoop
    by_cases hm : E.regex_match r n = true
    · simp only [hm, if_true, freezeParameter_eq, if_neg hv]
      rw [ih]
      simp only [CombineHarvester.modifyParameter, List.map_map, List.any_cons, hm, Bool.true_and,
        Bool.true_or, Bool.or_true]
      congr 2
      congr 1
      apply List.map_congr_left
      intro p _
      simp only [Function.comp]
      by_cases hn : p.name = n
      · subst hn
        cases hiv : itemValue E item <;> simp
      · have hn' : ¬ (n = p.name) := fun h => hn h.symm
        simp [hn, hn']
    · have hm' : E.regex_match r n = false := by simpa using hm
      simp only [hm', if_false, Bool.false_eq_true]
      rw [ih]
      simp [hm']

/-- The regular-expression loop when the VALUE is not a number: it fails at
the first matching name. -/
theorem freezeRegexLoop_bad (E : Engine) (item : String) (r : String)
    (hv : (split item '=').length = 2 ∧ itemValue E item = none) :
    ∀ (ps : List String) (cmb : CombineHarvester) (m : Bool),
      freezeRegexLoop E (split item '=') r ps (cmb, m) =
        if ps.any (fun n => E.regex_match r n) then .error Error.bad_lexical_cast
        else .ok (cmb, m) := by
  intro ps
  induction ps with
  | nil => intro cmb m; simp [freezeRegexLoop]
  | cons n rest ih =>
    intro cmb m
    unfold freezeRegexLoop
    by_cases hm : E.regex_match r n = true
    · simp [hm, freezeParameter_eq, hv]
    · have hm' : E.regex_match r n = false := by simpa using hm
      simp only [hm', if_false, Bool.false_eq_true]
      rw [ih]
      simp [hm']

theorem any_names_eq (E : Engine) (r : String) (l : List Parameter) (p : Parameter)
    (hp : p ∈ l) :
    (l.map (fun q => q.name)).any (fun n => E.regex_match r n && decide (n = p.name)) =
      E.regex_match r p.name := by
  cases hr : E.regex_match r p.name with
  | true =>
    rw [List.any_eq_true]
    exact ⟨p.name, List.mem_map.mpr ⟨p, hp, rfl⟩, by simp [hr]⟩
  | false =>
    rw [List.any_eq_false]
    intro n _
    by_cases hn : n = p.name
    · subst hn; simp [hr]
    · simp [hn]

theorem GetParameter_none_iff (cmb : CombineHarvester) (name : String) :
    cmb.GetParameter name = none ↔ ∀ p ∈ cmb.params, p.name ≠ name := by
  simp [CombineHarvester.GetParameter, List.find?_eq_none]

theorem GetParameter_some_name (cmb : CombineHarvester) (name : String) (par : Parameter)
    (h : cmb.GetParameter name = some par) : par.name = name := by
  have := List.find?_some h
  simpa using this

/-- Exact description of the processing of one item, when the list of names
is that of the model. -/
theorem freezeItem_eq (E : Engine) (cmb : CombineHarvester) (item : String) :
    freezeItem E (cmb.params.map (fun p => p.name)) cmb item =
      if itemMatches E cmb item = false then .error (Error.runtime_error freezeMissing)
      else if (split item '=').length = 2 ∧ itemValue E item = none then
        .error Error.bad_lexical_cast
      else .ok { cmb with params := cmb.params.map (itemEffect E item) } := by
  unfold freezeItem
  simp only []
  by_cases hrx : isRegexItem ((split item '=').getD 0 "") = true
  · have hsel : ∀ n, itemSelects E item n = E.regex_match (itemRegex item) n := by
      intro n; unfold itemSelects itemExpr; rw [if_pos hrx]
    have hmat : itemMatches E cmb item =
        (cmb.params.map (fun p => p.name)).any (fun n => E.regex_match (itemRegex item) n) := by
      unfold itemMatches
      simp only [hsel]
      induction cmb.params with
      | nil => rfl
      | cons a l ih => simp only [List.any_cons, List.map_cons, ih]
    rw [if_pos hrx]
    by_cases hv : (split item '=').length = 2 ∧ itemValue E item = none
    · rw [show substr ((split item '=').getD 0 "") 4 (((split item '=').getD 0 "").data.length - 5)
          = itemRegex item from rfl, freezeRegexLoop_bad E item _ hv, hmat]
      cases hany : (cmb.params.map (fun p => p.name)).any
          (fun n => E.regex_match (itemRegex item) n) with
      | true => simp [hv]
      | false => simp
    · rw [show substr ((split item '=').getD 0 "") 4 (((split item '=').getD 0 "").data.length - 5)
          = itemRegex item from rfl, freezeRegexLoop_ok E item _ hv, hmat]
      cases hany : (cmb.params.map (fun p => p.name)).any
          (fun n => E.regex_match (itemRegex item) n) with
      | false => simp
      | true =>
        simp only [Bool.false_or, Bool.not_true, Bool.false_eq_true, if_false, if_neg hv]
        congr 2
        apply List.map_congr_left
        intro p hp
        rw [any_names_eq E _ _ p hp]
        simp [itemEffect, hsel]
  · have hrx' : isRegexItem ((split item '=').getD 0 "") = false := by simpa using hrx
    have hsel : ∀ n, itemSelects E item n = decide (n = itemExpr item) := by
      intro n; unfold itemSelects itemExpr; rw [if_neg hrx]
    rw [if_neg hrx]
    cases hg : cmb.GetParameter ((split item '=').getD 0 "") with
    | none =>
      have hno := (GetParameter_none_iff cmb _).mp hg
      have : itemMatches E cmb item = false := by
        simp only [itemMatches, List.any_eq_false, hsel]
        intro p hp
        simpa [itemExpr] using hno p hp
      simp [this]
    | some par =>
      have hname := GetParameter_some_name cmb _ par hg
      have hmem : par ∈ cmb.params := List.mem_of_find?_eq_some hg
      have : itemMatches E cmb item = true := by
        simp only [itemMatches, List.any_eq_true, hsel]
        exact ⟨par, hmem, by simp [itemExpr, hname]⟩
      simp only [this, Bool.true_eq_false, if_false, freezeParameter_eq]
      by_cases hv : (split item '=').length = 2 ∧ itemValue E item = none
      · simp [hv]
      · simp only [if_neg hv]
        congr 2
        simp only [CombineHarvester.modifyParameter]
        congr 1
        apply List.map_congr_left
        intro p _
        simp only [itemEffect, hsel, hname, itemExpr, decide_eq_true_eq]


theorem itemMatches_effect (E : Engine) (cmb : CombineHarvester) (it item : String) :
    itemMatches E { cmb with params := cmb.params.map (itemEffect E it) } item =
      itemMatches E cmb item := by
  unfold itemMatches
  simp only []
  induction cmb.params with
  | nil => rfl
  | cons a l ih => simp only [List.map_cons, List.any_cons, ih, itemEffect_name]

theorem names_effect (E : Engine) (it : String) (l : List Parameter) :
    (l.map (itemEffect E it)).map (fun p => p.name) = l.map (fun p => p.name) := by
  induction l with
  | nil => rfl
  | cons a l ih => simp only [List.map_cons, ih, itemEffect_name]

/-- One step of the loop over the items. -/
theorem freezeItems_cons (E : Engine) (cmb : CombineHarvester) (item : String)
    (rest : List String) :
    freezeItems E (cmb.params.map (fun p => p.name)) cmb (item :: rest) =
      if itemMatches E cmb item = false then .error (Error.runtime_error freezeMissing)
      else if (split item '=').length = 2 ∧ itemValue E item = none then
        .error Error.bad_lexical_cast
      else
        freezeItems E (cmb.params.map (fun p => p.name))
          { cmb with params := cmb.params.map (itemEffect E item) } rest := by
  rw [freezeItems, freezeItem_eq]
  by_cases h1 : itemMatches E cmb item = false
  · simp [h1]
  · by_cases h2 : (split item '=').length = 2 ∧ itemValue E item = none
    · simp [h1, h2]
    · simp only [if_neg h1, if_neg h2]

theorem itemsEffect_cons (E : Engine) (item : String) (rest : List String) (p : Parameter) :
    itemsEffect E (item :: rest) p = itemsEffect E rest (itemEffect E item p) := rfl

/-- A directive whose items all select a parameter and carry numbers is
processed to the end, and acts on each parameter separately. -/
theorem freezeItems_ok (E : Engine) (items : List String) :
    ∀ cmb : CombineHarvester,
      (∀ item ∈ items, itemMatches E cmb item = true) →
      (∀ item ∈ items, ¬ ((split item '=').length = 2 ∧ itemValue E item = none)) →
      freezeItems E (cmb.params.map (fun p => p.name)) cmb items =
        .ok { cmb with params := cmb.params.map (itemsEffect E items) } := by
  induction items with
  | nil =>
    intro cmb _ _
    have : cmb.params.map (itemsEffect E []) = cmb.params := by
      induction cmb.params with
      | nil => rfl
      | cons a l ih => simp only [List.map_cons, ih]; rfl
    simp only [freezeItems, this]
  | cons item rest ih =>
    intro cmb hm hv
    rw [freezeItems_cons]
    have h1 : ¬ (itemMatches E cmb item = false) := by
      simp [hm item (List.mem_cons_self _ _)]
    rw [if_neg h1, if_neg (hv item (List.mem_cons_self _ _))]
    have hn := names_effect E item cmb.params
    have := ih { cmb with params := cmb.params.map (itemEffect E item) }
      (fun it hit => by
        rw [itemMatches_effect]; exact hm it (List.mem_cons_of_mem _ hit))
      (fun it hit => hv it (List.mem_cons_of_mem _ hit))
    simp only [hn] at this
    rw [this]
    simp only [List.map_map]
    rfl

/-- A directive that is processed to the end had only items that select a
parameter and carry numbers. -/
theorem freezeItems_ok_inv (E : Engine) (items : List String) :
    ∀ (cmb cmb' : CombineHarvester),
      freezeItems E (cmb.params.map (fun p => p.name)) cmb items = .ok cmb' →
      (∀ item ∈ items, itemMatches E cmb item = true) ∧
      (∀ item ∈ items, ¬ ((split item '=').length = 2 ∧ itemValue E item = none)) := by
  induction items with
  | nil => intro cmb cmb' _; simp
  | cons item rest ih =>
    intro cmb cmb' h
    rw [freezeItems_cons] at h
    by_cases h1 : itemMatches E cmb item = false
    · simp [h1] at h
    · by_cases h2 : (split item '=').length = 2 ∧ itemValue E item = none
      · simp [h1, h2] at h
      · rw [if_neg h1, if_neg h2] at h
        have hn := names_effect E item cmb.params
        have h' : freezeItems E
            (({ cmb with params := cmb.params.map (itemEffect E item) } :
              CombineHarvester).params.map (fun p => p.name))
            { cmb with params := cmb.params.map (itemEffect E item) } rest = .ok cmb' := by
          simp only [hn]; exact h
        obtain ⟨ih1, ih2⟩ := ih _ _ h'
        have h1' : itemMatches E cmb item = true := by simpa using h1
        constructor
        · intro it hit
          rcases List.mem_cons.mp hit with rfl | hr
          · exact h1'
          · have := ih1 it hr
            rwa [itemMatches_effect] at this
        · intro it hit
          rcases List.mem_cons.mp hit with rfl | hr
          · exact h2
          · exact ih2 it hr

/-- A directive with an item that selects no parameter ends in an
exception; with numeric values it is the exception of the freeze block. -/
theorem freezeItems_unmatched (E : Engine) (items : List String) :
    ∀ cmb : CombineHarvester,
      (∃ item ∈ items, itemMatches E cmb item = false) →
      (∃ e, freezeItems E (cmb.params.map (fun p => p.name)) cmb items = .error e) ∧
      (valuesWellFormed E items →
        freezeItems E (cmb.params.map (fun p => p.name)) cmb items =
          .error (Error.runtime_error freezeMissing)) := by
  induction items with
  | nil => intro cmb h; simp at h
  | cons item rest ih =>
    intro cmb h
    rw [freezeItems_cons]
    by_cases h1 : itemMatches E cmb item = false
    · simp [h1]
    · rw [if_neg h1]
      have hrest : ∃ it ∈ rest, itemMatches E
          { cmb with params := cmb.params.map (itemEffect E item) } it = false := by
        obtain ⟨it, hit, hf⟩ := h
        rcases List.mem_cons.mp hit with rfl | hr
        · exact absurd hf h1
        · exact ⟨it, hr, by rw [itemMatches_effect]; exact hf⟩
      have hn := names_effect E item cmb.params
      have := ih { cmb with params := cmb.params.map (itemEffect E item) } hrest
      simp only [hn] at this
      by_cases h2 : (split item '=').length = 2 ∧ itemValue E item = none
      · rw [if_pos h2]
        refine ⟨⟨_, rfl⟩, ?_⟩
        intro hw
        have := hw item (List.mem_cons_self _ _) h2.1
        simp [h2.2] at this
      · rw [if_neg h2]
        refine ⟨this.1, ?_⟩
        intro hw
        exact this.2 (fun it hit => hw it (List.mem_cons_of_mem _ hit))


/-! ## Lemmas on ordered maps and on the evaluation loops -/

theorem SMap.mem_keys_assign {α : Type} (m : SMap α) (k : String) (v : α) (k' : String) :
    k' ∈ (m.assign k v).keys ↔ k' = k ∨ k' ∈ m.keys := by
  induction m with
  | nil => simp [SMap.assign, SMap.keys]
  | cons e rest ih =>
    obtain ⟨ke, ve⟩ := e
    unfold SMap.assign
    by_cases h1 : k = ke
    · subst h1
      simp [SMap.keys]
    · rw [if_neg h1]
      by_cases h2 : k.data < ke.data
      · rw [if_pos h2]
        simp [SMap.keys]
      · rw [if_neg h2]
        have ih' : k' ∈ List.map Prod.fst (SMap.assign rest k v) ↔
            k' = k ∨ k' ∈ List.map Prod.fst rest := ih
        simp only [SMap.keys, List.map_cons, List.mem_cons, ih']
        tauto

theorem SMap.keys_mapValues {α : Type} (f : α → α) (m : SMap α) :
    (m.mapValues f).keys = m.keys := by
  simp [SMap.mapValues, SMap.keys, List.map_map, Function.comp]

theorem restoreAll_keys (E : Engine) (o : Options) (ref : TH1F) (s : SMap TH1F) :
    (restoreAll E o ref s).keys = s.keys := by
  unfold restoreAll
  split
  · exact SMap.keys_mapValues _ _
  · rfl

theorem reverseAll_keys (o : Options) (bin : String) (s : SMap TH1F) :
    (reverseAll o bin s).keys = s.keys := by
  unfold reverseAll
  induction o.reverse_bins_ generalizing s with
  | nil => rfl
  | cons r rest ih =>
    rw [List.foldl_cons, ih]
    split
    · rfl
    · exact SMap.keys_mapValues _ _

/-- A loop that assigns one histogram and appends one yield per element. -/
theorem loop_assign_all {X : Type} (label : X → String) (hist : X → TH1F) (rate err : X → ℚ)
    (f : SMap TH1F × List RooRealVar → X → SMap TH1F × List RooRealVar)
    (hf : ∀ st x, f st x =
      (st.1.assign (label x) (hist x), st.2 ++ [⟨"yield_" ++ label x, rate x, err x⟩]))
    (xs : List X) :
    ∀ st : SMap TH1F × List RooRealVar,
      (∀ l, l ∈ (xs.foldl f st).1.keys ↔ l ∈ st.1.keys ∨ l ∈ xs.map label) ∧
      (xs.foldl f st).2 =
        st.2 ++ xs.map (fun x => (⟨"yield_" ++ label x, rate x, err x⟩ : RooRealVar)) := by
  induction xs with
  | nil => intro st; simp
  | cons x rest ih =>
    intro st
    rw [List.foldl_cons]
    obtain ⟨ih1, ih2⟩ := ih (f st x)
    constructor
    · intro l
      rw [ih1, hf, SMap.mem_keys_assign]
      simp only [List.map_cons, List.mem_cons]
      tauto
    · rw [ih2, hf]
      simp

/-- A loop that, per element, either does nothing or assigns one histogram
and appends one yield. -/
theorem loop_assign_some {X : Type} (label : X → String)
    (f : SMap TH1F × List RooRealVar → X → SMap TH1F × List RooRealVar)
    (hf : ∀ st x, f st x = st ∨
      ∃ h r u, f st x = (st.1.assign (label x) h, st.2 ++ [⟨"yield_" ++ label x, r, u⟩]))
    (xs : List X) :
    ∀ st : SMap TH1F × List RooRealVar,
      (∀ l, l ∈ (xs.foldl f st).1.keys → l ∈ st.1.keys ∨ l ∈ xs.map label) ∧
      (∀ y ∈ (xs.foldl f st).2, y ∈ st.2 ∨ ∃ x ∈ xs, y.name = "yield_" ++ label x) := by
  induction xs with
  | nil => intro st; simp
  | cons x rest ih =>
    intro st
    rw [List.foldl_cons]
    obtain ⟨ih1, ih2⟩ := ih (f st x)
    rcases hf st x with h | ⟨h, r, u, h⟩
    · rw [h] at ih1 ih2 ⊢
      constructor
      · intro l hl
        rcases ih1 l hl with h1 | h1
        · exact Or.inl h1
        · exact Or.inr (by simp only [List.map_cons, List.mem_cons]; exact Or.inr h1)
      · intro y hy
        rcases ih2 y hy with h1 | ⟨x', hx', h1⟩
        · exact Or.inl h1
        · exact Or.inr ⟨x', List.mem_cons_of_mem _ hx', h1⟩
    · rw [h] at ih1 ih2 ⊢
      constructor
      · intro l hl
        rcases ih1 l hl with h1 | h1
        · rcases (SMap.mem_keys_assign _ _ _ _).mp h1 with h2 | h2
          · exact Or.inr (by simp only [List.map_cons, List.mem_cons]; exact Or.inl h2)
          · exact Or.inl h2
        · exact Or.inr (by simp only [List.map_cons, List.mem_cons]; exact Or.inr h1)
      · intro y hy
        rcases ih2 y hy with h1 | ⟨x', hx', h1⟩
        · rcases List.mem_append.mp h1 with h2 | h2
          · exact Or.inl h2
          · refine Or.inr ⟨x, List.mem_cons_self _ _, ?_⟩
            simp only [List.mem_singleton] at h2
            rw [h2]
        · exact Or.inr ⟨x', List.mem_cons_of_mem _ hx', h1⟩

/-- A loop passes over an element that changes nothing. -/
theorem loop_skip {X S : Type} (f : S → X → S) (x : X) (hx : ∀ st, f st x = st)
    (xs ys : List X) (st : S) :
    (xs ++ x :: ys).foldl f st = (xs ++ ys).foldl f st := by
  rw [List.foldl_append, List.foldl_cons, hx, List.foldl_append]

theorem yield_name_inj (a b : String) (h : "yield_" ++ a = "yield_" ++ b) : a = b := by
  have h1 := congrArg String.data h
  rw [String.data_append, String.data_append] at h1
  have h2 := List.append_cancel_left h1
  exact String.ext h2


theorem freeze_nonempty (E : Engine) (cmb : CombineHarvester) (freeze_arg : String)
    (hne : freeze_arg.data ≠ []) :
    freeze E cmb freeze_arg =
      freezeItems E (cmb.params.map (fun p => p.name)) cmb (split freeze_arg ',') := by
  unfold freeze
  have : freeze_arg.data.isEmpty = false := by
    cases hd : freeze_arg.data with
    | nil => exact absurd hd hne
    | cons a l => rfl
  simp [this]

theorem itemsEffect_name (E : Engine) (items : List String) :
    ∀ p : Parameter, (itemsEffect E items p).name = p.name := by
  induction items with
  | nil => intro p; rfl
  | cons it rest ih =>
    intro p
    rw [itemsEffect_cons, ih, itemEffect_name]

theorem itemsEffect_frozen (E : Engine) (items : List String) :
    ∀ p : Parameter, (itemsEffect E items p).frozen =
      (p.frozen || items.any (fun it => itemSelects E it p.name)) := by
  induction items with
  | nil => intro p; simp [itemsEffect]
  | cons it rest ih =>
    intro p
    rw [itemsEffect_cons, ih, itemEffect_name]
    unfold itemEffect
    cases hs : itemSelects E it p.name <;> simp [hs]

theorem itemsEffect_unselected (E : Engine) (items : List String) :
    ∀ p : Parameter, (∀ it ∈ items, itemSelects E it p.name = false) →
      itemsEffect E items p = p := by
  induction items with
  | nil => intro p _; rfl
  | cons it rest ih =>
    intro p h
    have h0 : itemEffect E it p = p := by
      simp [itemEffect, h it (List.mem_cons_self _ _)]
    rw [itemsEffect_cons, h0]
    exact ih p (fun i hi => h i (List.mem_cons_of_mem _ hi))

theorem itemsEffect_val (E : Engine) (items : List String) (name : String) (v0 : ℚ) :
    ∀ (q : Parameter) (acc : Option ℚ), q.name = name → q.val = acc.getD v0 →
      (itemsEffect E items q).val =
        (items.foldl
          (fun acc item =>
            if itemSelects E item name then
              (match itemValue E item with
               | some v => some v
               | none => acc)
            else acc)
          acc).getD v0 := by
  induction items with
  | nil => intro q acc _ hv; simpa [itemsEffect] using hv
  | cons it rest ih =>
    intro q acc hn hv
    rw [itemsEffect_cons, List.foldl_cons]
    apply ih
    · rw [itemEffect_name, hn]
    · unfold itemEffect
      rw [hn]
      cases hs : itemSelects E it name with
      | false => simpa using hv
      | true =>
        cases hiv : itemValue E it with
        | none => simpa using hv
        | some v => simp

/-- C4: when a non-empty freeze directive is processed successfully, the
model keeps its observations, processes and parameter names; a parameter
selected by an item (its full name equals a plain item's name or is matched
by an `rgx` item's regular expression) ends up frozen, so that a parameter is
frozen afterwards exactly when it was selected or was frozen before; its
value is the VALUE of the last selecting item of the form `NAME=VALUE` and
its previous value when no selecting item gives one; a parameter selected by
no item is unchanged. -/
theorem freeze_effect (E : Engine) (cmb cmb' : CombineHarvester) (freeze_arg : String)
    (hne : freeze_arg.data ≠ [])
    (h : freeze E cmb freeze_arg = .ok cmb') :
    cmb'.obs = cmb.obs ∧ cmb'.procs = cmb.procs ∧
    cmb'.params.length = cmb.params.length ∧
    ∀ (i : Nat) (p p' : Parameter), cmb.params[i]? = some p → cmb'.params[i]? = some p' →
      p'.name = p.name ∧
      ((∃ item ∈ split freeze_arg ',', itemSelects E item p.name = true) → p'.frozen = true) ∧
      (p'.frozen = true ↔
        (p.frozen = true ∨ ∃ item ∈ split freeze_arg ',', itemSelects E item p.name = true)) ∧
      p'.val = (lastValue E (split freeze_arg ',') p.name).getD p.val ∧
      ((∀ item ∈ split freeze_arg ',', itemSelects E item p.name = false) → p' = p) := by
  rw [freeze_nonempty E cmb freeze_arg hne] at h
  obtain ⟨hm, hv⟩ := freezeItems_ok_inv E _ cmb cmb' h
  rw [freezeItems_ok E _ cmb hm hv] at h
  have hc : cmb' = { cmb with params := cmb.params.map (itemsEffect E (split freeze_arg ',')) } := by
    injection h with h; exact h.symm
  subst hc
  refine ⟨rfl, rfl, by simp, ?_⟩
  intro i p p' hp hp'
  simp only [List.getElem?_map, hp, Option.map_some'] at hp'
  injection hp' with hp'
  subst hp'
  have hfro := itemsEffect_frozen E (split freeze_arg ',') p
  refine ⟨itemsEffect_name E _ p, ?_, ?_, ?_, itemsEffect_unselected E _ p⟩
  · rintro ⟨item, hmem, hs⟩
    rw [hfro]
    have : (split freeze_arg ',').any (fun it => itemSelects E it p.name) = true :=
      List.any_eq_true.mpr ⟨item, hmem, hs⟩
    simp [this]
  · rw [hfro, Bool.or_eq_true, List.any_eq_true]
  · exact itemsEffect_val E _ p.name p.val p none rfl rfl

/-- Witness of C4: the directive `r=3,rgx{lu.*}` on the example model freezes
both parameters and sets `r` to 3. -/
theorem freeze_effect_witness :
    ("r=3,rgx\x7blu.*\x7d" : String).data ≠ [] ∧
    freeze specEngine cat1Model "r=3,rgx\x7blu.*\x7d" = .ok cat1Frozen ∧
    (cat1Frozen.obs = cat1Model.obs ∧ cat1Frozen.procs = cat1Model.procs ∧
     cat1Frozen.params.length = cat1Model.params.length ∧
     ∀ (i : Nat) (p p' : Parameter),
      cat1Model.params[i]? = some p → cat1Frozen.params[i]? = some p' →
      p'.name = p.name ∧
      ((∃ item ∈ split "r=3,rgx\x7blu.*\x7d" ',', itemSelects specEngine item p.name = true) →
        p'.frozen = true) ∧
      (p'.frozen = true ↔
        (p.frozen = true ∨
          ∃ item ∈ split "r=3,rgx\x7blu.*\x7d" ',', itemSelects specEngine item p.name = true)) ∧
      p'.val = (lastValue specEngine (split "r=3,rgx\x7blu.*\x7d" ',') p.name).getD p.val ∧
      ((∀ item ∈ split "r=3,rgx\x7blu.*\x7d" ',', itemSelects specEngine item p.name = false) →
        p' = p)) :=
  ⟨by decide, by rfl,
   freeze_effect specEngine cat1Model cat1Frozen "r=3,rgx\x7blu.*\x7d" (by decide) (by rfl)⟩

/-- The test of lines 116-119 never fires: `main` goes on to the command
line. -/
theorem main_eq (E : Engine) (W : World) (cl : CommandLine) :
    main E W cl =
      if cl.help then ⟨none, Console.empty, .ok 1⟩
      else
        match W.workspace cl.parsed.workspace with
        | none =>
          ⟨none, Console.empty,
            .error (Error.runtime_error "Could not locate workspace in input file")⟩
        | some ws =>
          match freeze E (ws cl.parsed.data) cl.parsed.freeze_arg with
          | .error e => ⟨none, Console.empty, .error e⟩
          | .ok cmb =>
            produce E W cl.parsed (parseMergeProcs cl.parsed.input_merge_procs_)
              (cmb.FilterProcs no_shape)
              (if cl.parsed.datacard ≠ "" then W.ParseDatacard cl.parsed.datacard cl.parsed.mass
               else CombineHarvester.empty)
              (if cl.parsed.bins_.length = 0 then (cmb.FilterProcs no_shape).bin_set
               else cl.parsed.bins_) := by
  unfold main
  rw [if_neg (by decide)]

/-- C5: a run on a loaded model whose non-empty freeze directive has an item
that selects no parameter ends in an exception and produces no output: the
output file is never created, so no histogram or yield is written.  When the
VALUEs of the directive are numbers the exception is the one of the freeze
block. -/
theorem freeze_unmatched_no_output (E : Engine) (W : World) (cl : CommandLine)
    (ws : String → CombineHarvester)
    (hhelp : cl.help = false)
    (hws : W.workspace cl.parsed.workspace = some ws)
    (hne : cl.parsed.freeze_arg.data ≠ [])
    (hun : ∃ item ∈ split cl.parsed.freeze_arg ',',
      itemMatches E (ws cl.parsed.data) item = false) :
    (∃ e, (main E W cl).exit = .error e) ∧
    (main E W cl).outfile = none ∧
    (valuesWellFormed E (split cl.parsed.freeze_arg ',') →
      (main E W cl).exit = .error (Error.runtime_error freezeMissing)) := by
  have hf := freezeItems_unmatched E _ (ws cl.parsed.data) hun
  rw [← freeze_nonempty E _ _ hne] at hf
  obtain ⟨⟨e, he⟩, hw⟩ := hf
  have hmain : main E W cl = ⟨none, Console.empty, .error e⟩ := by
    rw [main_eq]
    simp only [hhelp, hws, he, Bool.false_eq_true, if_false]
  rw [hmain]
  refine ⟨⟨e, rfl⟩, rfl, ?_⟩
  intro hv
  have := hw hv
  rw [he] at this
  injection this with this
  rw [this]

/-- Witness of C5: the directive `rgx{unknown_.*}` on the example model. -/
theorem freeze_unmatched_no_output_witness :
    (false = false) ∧
    cat1World.workspace "ws.root" = some (fun _ => cat1Model) ∧
    ("rgx\x7bunknown_.*\x7d" : String).data ≠ [] ∧
    (∃ item ∈ split "rgx\x7bunknown_.*\x7d" ',', itemMatches specEngine cat1Model item = false) ∧
    ((∃ e, (main specEngine cat1World
        ⟨false, { cat1Options with freeze_arg := "rgx\x7bunknown_.*\x7d" }⟩).exit = .error e) ∧
     (main specEngine cat1World
        ⟨false, { cat1Options with freeze_arg := "rgx\x7bunknown_.*\x7d" }⟩).outfile = none ∧
     (valuesWellFormed specEngine (split "rgx\x7bunknown_.*\x7d" ',') →
      (main specEngine cat1World
        ⟨false, { cat1Options with freeze_arg := "rgx\x7bunknown_.*\x7d" }⟩).exit =
          .error (Error.runtime_error freezeMissing))) :=
  ⟨rfl, rfl, by decide, ⟨"rgx\x7bunknown_.*\x7d", by decide, by decide⟩,
   freeze_unmatched_no_output specEngine cat1World
     ⟨false, { cat1Options with freeze_arg := "rgx\x7bunknown_.*\x7d" }⟩ (fun _ => cat1Model)
     rfl rfl (by decide) ⟨"rgx\x7bunknown_.*\x7d", by decide, by decide⟩⟩


/-- C6, the code at the failing input: with `--sampling` and without
`--postfit` the run on the example model does not abort; it ends with exit
code 0 after creating the output file and writing the pre-fit histograms and
yields. -/
theorem sampling_without_postfit_runs :
    samplingOnlyOptions.sampling = true ∧ samplingOnlyOptions.postfit = false ∧
    (main specEngine cat1World ⟨false, samplingOnlyOptions⟩).exit = .ok 0 ∧
    (main specEngine cat1World ⟨false, samplingOnlyOptions⟩).keys =
      ["cat1_prefit/TotalBkg", "cat1_prefit/TotalProcs", "cat1_prefit/TotalSig",
       "cat1_prefit/bkg1", "cat1_prefit/bkg2", "cat1_prefit/data_obs", "cat1_prefit/sig",
       "cat1_prefit/yield_data_obs", "cat1_prefit/yield_bkg1", "cat1_prefit/yield_bkg2",
       "cat1_prefit/yield_sig", "cat1_prefit/yield_TotalBkg", "cat1_prefit/yield_TotalSig",
       "cat1_prefit/yield_TotalProcs"] :=
  ⟨rfl, rfl, by rfl, by decide⟩

/-- C7 as stated fails: in the run on the example model with `--postfit` and
no loadable fit result, pre-fit evaluation not skipped, the failure is raised
after the fourteen pre-fit rows of `cat1` have been written. -/
theorem fit_failure_after_prefit_writes :
    postfitOptions.postfit = true ∧ postfitOptions.skip_prefit = false ∧
    cat1World.OpenFromTFile postfitOptions.fitresult =
      .error (Error.runtime_error "could not open fit result") ∧
    (main specEngine cat1World ⟨false, postfitOptions⟩).exit =
      .error (Error.runtime_error "could not open fit result") ∧
    (main specEngine cat1World ⟨false, postfitOptions⟩).keys =
      ["cat1_prefit/TotalBkg", "cat1_prefit/TotalProcs", "cat1_prefit/TotalSig",
       "cat1_prefit/bkg1", "cat1_prefit/bkg2", "cat1_prefit/data_obs", "cat1_prefit/sig",
       "cat1_prefit/yield_data_obs", "cat1_prefit/yield_bkg1", "cat1_prefit/yield_bkg2",
       "cat1_prefit/yield_sig", "cat1_prefit/yield_TotalBkg", "cat1_prefit/yield_TotalSig",
       "cat1_prefit/yield_TotalProcs"] :=
  ⟨rfl, rfl, rfl, by rfl, by decide⟩

/-- C7 as amended: when post-fit is requested and the fit result cannot be
loaded, the run ends in an exception; on a loaded model with a successful
freeze block it is the exception of the load, and the output file then holds
exactly the rows of the pre-fit part, hence no post-fit row, and no row at
all when pre-fit evaluation was skipped. -/
theorem fit_result_missing (E : Engine) (W : World) (cl : CommandLine) (e : Error)
    (hhelp : cl.help = false)
    (hpost : cl.parsed.postfit = true)
    (hfit : W.OpenFromTFile cl.parsed.fitresult = .error e) :
    (∃ e', (main E W cl).exit = .error e') ∧
    (∀ (ws : String → CombineHarvester) (cmb : CombineHarvester),
      W.workspace cl.parsed.workspace = some ws →
      freeze E (ws cl.parsed.data) cl.parsed.freeze_arg = .ok cmb →
      (main E W cl).exit = .error e ∧
      (main E W cl).outfile =
        some (if cl.parsed.skip_prefit then []
          else (prefit E cl.parsed (parseMergeProcs cl.parsed.input_merge_procs_)
            (cmb.FilterProcs no_shape)
            (if cl.parsed.datacard ≠ "" then W.ParseDatacard cl.parsed.datacard cl.parsed.mass
             else CombineHarvester.empty)
            (if cl.parsed.bins_.length = 0 then (cmb.FilterProcs no_shape).bin_set
             else cl.parsed.bins_)).2.1) ∧
      (cl.parsed.skip_prefit = true → (main E W cl).outfile = some [])) := by
  have hprod : ∀ mp c card bins,
      produce E W cl.parsed mp c card bins =
        ⟨some (if cl.parsed.skip_prefit then [] else (prefit E cl.parsed mp c card bins).2.1),
         ⟨if cl.parsed.skip_prefit then [] else (prefit E cl.parsed mp c card bins).2.2, [], []⟩,
         .error e⟩ := by
    intro mp c card bins
    unfold produce
    simp only [hpost, hfit, if_true]
    cases hs : cl.parsed.skip_prefit <;> simp
  rw [main_eq]
  simp only [hhelp, Bool.false_eq_true, if_false]
  constructor
  · cases hws : W.workspace cl.parsed.workspace with
    | none => exact ⟨_, rfl⟩
    | some ws =>
      simp only []
      cases hf : freeze E (ws cl.parsed.data) cl.parsed.freeze_arg with
      | error e' => exact ⟨_, rfl⟩
      | ok cmb => simp only [hprod]; exact ⟨_, rfl⟩
  · intro ws cmb hws hf
    rw [hws]
    simp only []
    rw [hf]
    simp only []
    rw [hprod]
    refine ⟨rfl, rfl, ?_⟩
    intro hs
    simp [hs]

/-- Witness of C7 as amended: the run on the example model with `--postfit`
and no loadable fit result. -/
theorem fit_result_missing_witness :
    (false = false) ∧ postfitOptions.postfit = true ∧
    cat1World.OpenFromTFile postfitOptions.fitresult =
      .error (Error.runtime_error "could not open fit result") ∧
    ((∃ e', (main specEngine cat1World ⟨false, postfitOptions⟩).exit = .error e') ∧
     (∀ (ws : String → CombineHarvester) (cmb : CombineHarvester),
      cat1World.workspace postfitOptions.workspace = some ws →
      freeze specEngine (ws postfitOptions.data) postfitOptions.freeze_arg = .ok cmb →
      (main specEngine cat1World ⟨false, postfitOptions⟩).exit =
        .error (Error.runtime_error "could not open fit result") ∧
      (main specEngine cat1World ⟨false, postfitOptions⟩).outfile =
        some (if postfitOptions.skip_prefit then []
          else (prefit specEngine postfitOptions
            (parseMergeProcs postfitOptions.input_merge_procs_)
            (cmb.FilterProcs no_shape)
            (if postfitOptions.datacard ≠ "" then
               cat1World.ParseDatacard postfitOptions.datacard postfitOptions.mass
             else CombineHarvester.empty)
            (if postfitOptions.bins_.length = 0 then (cmb.FilterProcs no_shape).bin_set
             else postfitOptions.bins_)).2.1) ∧
      (postfitOptions.skip_prefit = true →
        (main specEngine cat1World ⟨false, postfitOptions⟩).outfile = some []))) :=
  ⟨rfl, rfl, rfl,
   fit_result_missing specEngine cat1World ⟨false, postfitOptions⟩
     (Error.runtime_error "could not open fit result") rfl rfl rfl⟩


/-- C10, the code on the category-summed post-fit block: whatever the model
and the options, the four histograms evaluated in the post-fit state are
written under `postfit/`, but the four yields evaluated in the post-fit state
are written under `prefit/yield_...` (line 486); in the run on the example
model with `--postfit --total-shapes` the path `prefit/yield_TotalBkg` is
thus written twice and `postfit/yield_TotalBkg` never. -/
theorem postfit_total_yields_under_prefit :
    (∀ (E : Engine) (o : Options) (res : RooFitResult) (cmb cmb_card : CombineHarvester),
      (postfitTotal E o res cmb cmb_card).map Prod.fst =
        ["postfit/TotalBkg", "postfit/TotalProcs", "postfit/TotalSig", "postfit/data_obs",
         "prefit/yield_data_obs", "prefit/yield_TotalBkg", "prefit/yield_TotalSig",
         "prefit/yield_TotalProcs"]) ∧
    (main specEngine cat1WorldFit ⟨false, totalShapesOptions⟩).exit = .ok 0 ∧
    (main specEngine cat1WorldFit ⟨false, totalShapesOptions⟩).keys.count
      "prefit/yield_TotalBkg" = 2 ∧
    (main specEngine cat1WorldFit ⟨false, totalShapesOptions⟩).keys.count
      "postfit/yield_TotalBkg" = 0 := by
  refine ⟨?_, by rfl, by decide, by decide⟩
  intro E o res cmb cmb_card
  unfold postfitTotal restoreAll
  by_cases hd : o.datacard ≠ ""
  · simp only [if_pos hd]; rfl
  · simp only [if_neg hd]; rfl


theorem prefitMerged_cases (E : Engine) (o : Options) (cb : CombineHarvester)
    (st : SMap TH1F × List RooRealVar) (x : String × String) :
    prefitMerged E o cb st x = st ∨
      ∃ h r u, prefitMerged E o cb st x =
        (st.1.assign x.1 h, st.2 ++ [⟨"yield_" ++ x.1, r, u⟩]) := by
  unfold prefitMerged
  simp only []
  split
  · exact Or.inl rfl
  · exact Or.inr ⟨_, _, _, rfl⟩

theorem postfitMerged_cases (E : Engine) (o : Options) (res : RooFitResult)
    (cb : CombineHarvester) (st : SMap TH1F × List RooRealVar) (x : String × String) :
    postfitMerged E o res cb st x = st ∨
      ∃ h r u, postfitMerged E o res cb st x =
        (st.1.assign x.1 h, st.2 ++ [⟨"yield_" ++ x.1, r, u⟩]) := by
  unfold postfitMerged
  simp only []
  split
  · exact Or.inl rfl
  · exact Or.inr ⟨_, _, _, rfl⟩

/-- The labels that the evaluation of a category can produce. -/
theorem bin_rows_sub (m : SMap String) (procs : List String) (s0 : SMap TH1F)
    (d : TH1F) (y0 : RooRealVar) (hy0 : y0.name = "yield_data_obs")
    (fp : SMap TH1F × List RooRealVar → String → SMap TH1F × List RooRealVar)
    (gm : SMap TH1F × List RooRealVar → String × String → SMap TH1F × List RooRealVar)
    (hist : String → TH1F) (rate err : String → ℚ)
    (hfp : ∀ st x, fp st x =
      (st.1.assign x (hist x), st.2 ++ [⟨"yield_" ++ x, rate x, err x⟩]))
    (hgm : ∀ st x, gm st x = st ∨
      ∃ h r u, gm st x = (st.1.assign x.1 h, st.2 ++ [⟨"yield_" ++ x.1, r, u⟩]))
    (L : String)
    (hL1 : L ∉ ["data_obs", "TotalBkg", "TotalSig", "TotalProcs"])
    (hL2 : L ∉ procs) (hL3 : L ∉ m.keys) (hL4 : L ∉ s0.keys) :
    L ∉ (m.foldl gm (procs.foldl fp (s0.assign "data_obs" d, [y0]))).1.keys ∧
    ∀ y ∈ (m.foldl gm (procs.foldl fp (s0.assign "data_obs" d, [y0]))).2,
      y.name ≠ "yield_" ++ L := by
  obtain ⟨p1, p2⟩ := loop_assign_all (fun x => x) hist rate err fp hfp procs
    (s0.assign "data_obs" d, [y0])
  obtain ⟨q1, q2⟩ := loop_assign_some Prod.fst gm hgm m
    (procs.foldl fp (s0.assign "data_obs" d, [y0]))
  simp only [List.mem_cons, List.mem_singleton, List.not_mem_nil, or_false, not_or] at hL1
  constructor
  · intro hmem
    rcases q1 L hmem with h | h
    · rcases (p1 L).mp h with h | h
      · rcases (SMap.mem_keys_assign _ _ _ _).mp h with h | h
        · exact hL1.1 h
        · exact hL4 h
      · simp only [List.map_id'] at h
        exact hL2 h
    · exact hL3 h
  · intro y hy hname
    rcases q2 y hy with h | ⟨x, hx, h⟩
    · rw [p2] at h
      rcases List.mem_append.mp h with h | h
      · simp only [List.mem_singleton] at h
        rw [h, hy0] at hname
        exact hL1.1 (yield_name_inj _ _ hname).symm
      · obtain ⟨x, hx, rfl⟩ := List.mem_map.mp h
        exact hL2 ((yield_name_inj _ _ hname) ▸ hx)
    · rw [h] at hname
      have := yield_name_inj _ _ hname
      exact hL3 (List.mem_map.mpr ⟨x, hx, this⟩)

/-- C8: for a category `c` and a merge directive `LABEL=PATTERN` of the map
`merged_procs` whose pattern selects no process of `c`, the evaluation of `c`
in the pre-fit and in the post-fit state gives the same histograms and yields
as without the directive, so every other row is produced as without it; the
directive does not change how the run ends; and when `LABEL` is not the label
of another row of the category, no histogram and no yield named after `LABEL`
is produced. -/
theorem merged_group_no_match (E : Engine) (W : World) (o : Options) (res : RooFitResult)
    (m1 m2 : SMap String) (LABEL PATTERN : String) (cmb cmb_card : CombineHarvester)
    (s0 : SMap TH1F) (c : String) (bins : List String)
    (hsel : (((cmb.bin E [c]).process E [PATTERN]).process_set).length = 0) :
    prefitBin E o (m1 ++ (LABEL, PATTERN) :: m2) cmb cmb_card s0 c =
      prefitBin E o (m1 ++ m2) cmb cmb_card s0 c ∧
    postfitBin E o res (m1 ++ (LABEL, PATTERN) :: m2) cmb cmb_card s0 c =
      postfitBin E o res (m1 ++ m2) cmb cmb_card s0 c ∧
    (produce E W o (m1 ++ (LABEL, PATTERN) :: m2) cmb cmb_card bins).exit =
      (produce E W o (m1 ++ m2) cmb cmb_card bins).exit ∧
    (LABEL ∉ ["data_obs", "TotalBkg", "TotalSig", "TotalProcs"] →
      LABEL ∉ (cmb.bin E [c]).process_set → LABEL ∉ SMap.keys (m1 ++ m2) → LABEL ∉ s0.keys →
      (LABEL ∉ (prefitBin E o (m1 ++ (LABEL, PATTERN) :: m2) cmb cmb_card s0 c).1.keys ∧
       (∀ y ∈ (prefitBin E o (m1 ++ (LABEL, PATTERN) :: m2) cmb cmb_card s0 c).2,
          y.name ≠ "yield_" ++ LABEL)) ∧
      (LABEL ∉ (postfitBin E o res (m1 ++ (LABEL, PATTERN) :: m2) cmb cmb_card s0 c).1.keys ∧
       (∀ y ∈ (postfitBin E o res (m1 ++ (LABEL, PATTERN) :: m2) cmb cmb_card s0 c).2,
          y.name ≠ "yield_" ++ LABEL))) := by
  have hpre : prefitBin E o (m1 ++ (LABEL, PATTERN) :: m2) cmb cmb_card s0 c =
      prefitBin E o (m1 ++ m2) cmb cmb_card s0 c := by
    unfold prefitBin
    simp only []
    rw [loop_skip (prefitMerged E o (cmb.bin E [c])) (LABEL, PATTERN)
      (fun st => by unfold prefitMerged; simp only [hsel, if_true])]
  have hpost : postfitBin E o res (m1 ++ (LABEL, PATTERN) :: m2) cmb cmb_card s0 c =
      postfitBin E o res (m1 ++ m2) cmb cmb_card s0 c := by
    unfold postfitBin
    simp only []
    rw [loop_skip (postfitMerged E o res (cmb.bin E [c])) (LABEL, PATTERN)
      (fun st => by unfold postfitMerged; simp only [hsel, if_true])]
  refine ⟨hpre, hpost, ?_, ?_⟩
  · unfold produce
    simp only []
    split
    · split <;> rfl
    · rfl
  · intro hL1 hL2 hL3 hL4
    rw [hpre, hpost]
    have hL1' := hL1
    simp only [List.mem_cons, List.mem_singleton, List.not_mem_nil, or_false, not_or] at hL1'
    constructor
    · have hb := bin_rows_sub (m1 ++ m2) (cmb.bin E [c]).process_set s0
        (E.GetObservedShape (cmb.bin E [c]))
        ⟨"yield_data_obs", E.GetObservedRate (cmb.bin E [c]),
          E.sqrt (E.GetObservedRate (cmb.bin E [c]))⟩ rfl
        (prefitProc E o (cmb.bin E [c]))
        (prefitMerged E o (cmb.bin E [c])) _ _ _ (fun _ _ => rfl)
        (prefitMerged_cases E o (cmb.bin E [c])) LABEL hL1 hL2 hL3 hL4
      unfold prefitBin
      simp only [reverseAll_keys, restoreAll_keys]
      constructor
      · intro hmem
        rcases (SMap.mem_keys_assign _ _ _ _).mp hmem with h | h
        · exact hL1'.2.2.2 h
        · rcases (SMap.mem_keys_assign _ _ _ _).mp h with h | h
          · exact hL1'.2.2.1 h
          · rcases (SMap.mem_keys_assign _ _ _ _).mp h with h | h
            · exact hL1'.2.1 h
            · exact hb.1 h
      · intro y hy hname
        simp only [List.mem_append, List.mem_singleton] at hy
        rcases hy with ((h | h) | h) | h
        · exact hb.2 y h hname
        · rw [h] at hname; exact hL1'.2.1 (yield_name_inj _ _ hname).symm
        · rw [h] at hname; exact hL1'.2.2.1 (yield_name_inj _ _ hname).symm
        · rw [h] at hname; exact hL1'.2.2.2 (yield_name_inj _ _ hname).symm
    · have hb := bin_rows_sub (m1 ++ m2) (cmb.bin E [c]).process_set s0
        (E.GetObservedShape (cmb.bin E [c]))
        ⟨"yield_data_obs", E.GetObservedRate (cmb.bin E [c]),
          E.sqrt (E.GetObservedRate (cmb.bin E [c]))⟩ rfl
        (postfitProc E o res (cmb.bin E [c]))
        (postfitMerged E o res (cmb.bin E [c])) _ _ _ (fun _ _ => rfl)
        (postfitMerged_cases E o res (cmb.bin E [c])) LABEL hL1 hL2 hL3 hL4
      unfold postfitBin
      simp only [reverseAll_keys, restoreAll_keys]
      constructor
      · intro hmem
        rcases (SMap.mem_keys_assign _ _ _ _).mp hmem with h | h
        · exact hL1'.2.2.2 h
        · rcases (SMap.mem_keys_assign _ _ _ _).mp h with h | h
          · exact hL1'.2.2.1 h
          · rcases (SMap.mem_keys_assign _ _ _ _).mp h with h | h
            · exact hL1'.2.1 h
            · exact hb.1 h
      · intro y hy hname
        simp only [List.mem_append, List.mem_singleton] at hy
        rcases hy with ((h | h) | h) | h
        · exact hb.2 y h hname
        · rw [h] at hname; exact hL1'.2.1 (yield_name_inj _ _ hname).symm
        · rw [h] at hname; exact hL1'.2.2.1 (yield_name_inj _ _ hname).symm
        · rw [h] at hname; exact hL1'.2.2.2 (yield_name_inj _ _ hname).symm

/-- Witness of C8: the directive `VV=nomatch` on the example model, whose
category `cat1` has no process called `nomatch`. -/
theorem merged_group_no_match_witness :
    ((((cat1Model.bin specEngine ["cat1"]).process specEngine ["nomatch"]).process_set).length
      = 0) ∧
    (prefitBin specEngine cat1Options ([] ++ ("VV", "nomatch") :: []) cat1Model
        CombineHarvester.empty [] "cat1" =
      prefitBin specEngine cat1Options ([] ++ []) cat1Model CombineHarvester.empty [] "cat1" ∧
    postfitBin specEngine cat1Options ⟨[], []⟩ ([] ++ ("VV", "nomatch") :: []) cat1Model
        CombineHarvester.empty [] "cat1" =
      postfitBin specEngine cat1Options ⟨[], []⟩ ([] ++ []) cat1Model
        CombineHarvester.empty [] "cat1" ∧
    (produce specEngine cat1World cat1Options ([] ++ ("VV", "nomatch") :: []) cat1Model
        CombineHarvester.empty ["cat1"]).exit =
      (produce specEngine cat1World cat1Options ([] ++ []) cat1Model
        CombineHarvester.empty ["cat1"]).exit ∧
    ("VV" ∉ ["data_obs", "TotalBkg", "TotalSig", "TotalProcs"] →
      "VV" ∉ (cat1Model.bin specEngine ["cat1"]).process_set →
      "VV" ∉ SMap.keys (([] : SMap String) ++ []) → "VV" ∉ SMap.keys ([] : SMap TH1F) →
      ("VV" ∉ (prefitBin specEngine cat1Options ([] ++ ("VV", "nomatch") :: []) cat1Model
          CombineHarvester.empty [] "cat1").1.keys ∧
       (∀ y ∈ (prefitBin specEngine cat1Options ([] ++ ("VV", "nomatch") :: []) cat1Model
          CombineHarvester.empty [] "cat1").2, y.name ≠ "yield_" ++ "VV")) ∧
      ("VV" ∉ (postfitBin specEngine cat1Options ⟨[], []⟩ ([] ++ ("VV", "nomatch") :: [])
          cat1Model CombineHarvester.empty [] "cat1").1.keys ∧
       (∀ y ∈ (postfitBin specEngine cat1Options ⟨[], []⟩ ([] ++ ("VV", "nomatch") :: [])
          cat1Model CombineHarvester.empty [] "cat1").2, y.name ≠ "yield_" ++ "VV")))) :=
  ⟨by decide,
   merged_group_no_match specEngine cat1World cat1Options ⟨[], []⟩ [] [] "VV" "nomatch"
     cat1Model CombineHarvester.empty [] "cat1" ["cat1"] (by decide)⟩

/-- C13 as stated fails: in the run on the example model with `--postfit
--skip-prefit --print` the pre-fit histograms are default-constructed, their
integral is zero, and the post/pre scale factor printed for every process is
1, not 0. -/
theorem scale_factor_fallback_is_one :
    TH1F.default.Integral = 0 ∧
    scaleFactor TH1F.default (hist2 4 6) = 1 ∧
    (main specEngine cat1WorldFit ⟨false, printOptions⟩).console.scale_factors =
      [("cat1", "bkg1", 1), ("cat1", "bkg2", 1), ("cat1", "sig", 1)] := by
  refine ⟨by decide!, by decide!, by decide!⟩

/-- C13 as amended: the relative background uncertainty printed for the
pre-fit and the post-fit state is `err / rate` when the rate is positive and
the fallback value 0 when the rate is zero; the post/pre scale factor is
`post.Integral() / pre.Integral()` when the pre-fit integral is positive and
the fallback value 1 when it is zero; the three printed tables hold exactly
these ratios. -/
theorem printed_ratios (E : Engine) (o : Options) (res : RooFitResult)
    (cmb : CombineHarvester) (bins : List String)
    (pre_shapes post_shapes : SMap (SMap TH1F)) :
    (∀ rate err : ℚ,
      (rate = 0 → relUncert rate err = 0) ∧ (0 < rate → relUncert rate err = err / rate)) ∧
    (∀ pre post : TH1F,
      (pre.Integral = 0 → scaleFactor pre post = 1) ∧
      (0 < pre.Integral → scaleFactor pre post = post.Integral / pre.Integral)) ∧
    prefitFactors E cmb bins =
      bins.map (fun bin =>
        (bin, relUncert (E.GetRate (cmb.bin E [bin]).backgrounds)
          (E.GetUncertainty (cmb.bin E [bin]).backgrounds))) ∧
    postfitFactors E o res cmb bins =
      bins.map (fun bin =>
        (bin, relUncert (E.GetRate (cmb.bin E [bin]).backgrounds)
          (postUncert E o res (cmb.bin E [bin]).backgrounds))) ∧
    scaleFactors E cmb bins pre_shapes post_shapes =
      bins.flatMap (fun bin =>
        (cmb.bin E [bin]).process_set.map (fun proc =>
          (bin, proc,
            scaleFactor (shapeAt pre_shapes bin proc) (shapeAt post_shapes bin proc)))) := by
  refine ⟨?_, ?_, rfl, rfl, rfl⟩
  · intro rate err
    constructor
    · intro h
      simp [relUncert, h]
    · intro h
      simp [relUncert, h]
  · intro pre post
    constructor
    · intro h
      simp [scaleFactor, h]
    · intro h
      simp [scaleFactor, h]

/-- Witness of C13 as amended, at the rate 0, the rate 4 with error 2, and the
histograms of the examples. -/
theorem printed_ratios_witness :
    ((0 : ℚ) = 0) ∧ ((0 : ℚ) < 4) ∧ TH1F.default.Integral = 0 ∧ 0 < (hist2 4 6).Integral ∧
    relUncert 0 5 = 0 ∧ relUncert 4 2 = 2 / 4 ∧
    scaleFactor TH1F.default (hist2 4 6) = 1 ∧
    scaleFactor (hist2 4 6) (hist2 2 3) = (hist2 2 3).Integral / (hist2 4 6).Integral :=
  ⟨rfl, by norm_num, by decide!, by decide!,
   ((printed_ratios specEngine cat1Options ⟨[], []⟩ cat1Model [] [] []).1 0 5).1 rfl,
   ((printed_ratios specEngine cat1Options ⟨[], []⟩ cat1Model [] [] []).1 4 2).2 (by norm_num),
   ((printed_ratios specEngine cat1Options ⟨[], []⟩ cat1Model [] [] []).2.1
      TH1F.default (hist2 4 6)).1 (by decide!),
   ((printed_ratios specEngine cat1Options ⟨[], []⟩ cat1Model [] [] []).2.1
      (hist2 4 6) (hist2 2 3)).2 (by decide!)⟩


/-! ## Bin reversal of a category -/

theorem SMap.mapValues_mapValues {α : Type} (f g : α → α) (m : SMap α) :
    (m.mapValues f).mapValues g = m.mapValues (fun a => g (f a)) := by
  simp [SMap.mapValues, List.map_map, Function.comp]

theorem SMap.mapValues_id {α : Type} (m : SMap α) : m.mapValues (fun a => a) = m := by
  simp [SMap.mapValues]

theorem reverseOne_cons (r : String) (rest : List String) (bin : String) (h : TH1F) :
    reverseOne (r :: rest) bin h =
      reverseOne rest bin (if r ≠ bin then h else ReverseBins h) := rfl

/-- The reversal loop acts on every histogram of the map separately. -/
theorem reverseAll_eq (o : Options) (bin : String) (s : SMap TH1F) :
    reverseAll o bin s = s.mapValues (reverseOne o.reverse_bins_ bin) := by
  unfold reverseAll
  induction o.reverse_bins_ generalizing s with
  | nil => exact (SMap.mapValues_id s).symm
  | cons r rest ih =>
    rw [List.foldl_cons, ih]
    by_cases hr : r ≠ bin
    · rw [if_pos hr]
      congr 1
      funext h
      rw [reverseOne_cons, if_pos hr]
    · rw [if_neg hr, SMap.mapValues_mapValues]
      congr 1
      funext h
      rw [reverseOne_cons, if_neg hr]

/-- A histogram of the category `bin` is reversed when `bin` occurs an odd
number of times in the list, and left as it is when the number is even. -/
theorem reverseOne_parity (l : List String) (bin : String) :
    ∀ h : TH1F,
      reverseOne l bin h = if l.count bin % 2 = 0 then h else ReverseBins h := by
  induction l with
  | nil => intro h; rfl
  | cons r rest ih =>
    intro h
    rw [reverseOne_cons, ih]
    by_cases hr : r ≠ bin
    · have hc : (r :: rest).count bin = rest.count bin := by
        rw [List.count_cons]
        have : (r == bin) = false := by simpa using hr
        simp [this]
      rw [if_pos hr, hc]
    · have hrb : r = bin := by simpa using hr
      have hc : (r :: rest).count bin = rest.count bin + 1 := by
        rw [List.count_cons]
        simp [hrb]
      have hinv : ReverseBins (ReverseBins h) = h := by
        rw [ReverseBins_eq, ReverseBins_eq]
        simp
      rw [if_neg hr, hc, hinv]
      by_cases hp : rest.count bin % 2 = 0
      · have hp' : ¬ ((rest.count bin + 1) % 2 = 0) := by omega
        rw [if_pos hp, if_neg hp']
      · have hp' : (rest.count bin + 1) % 2 = 0 := by omega
        rw [if_neg hp, if_pos hp']

/-- C14, the code at the failing input: in the post-fit run on the example
model with `--reverse-bins cat1 cat1` every histogram of `cat1` is reversed
twice, so the output file equals the one of the run without `--reverse-bins`
and the histogram of `bkg1` is written unreversed in both fit states, whereas
with `--reverse-bins cat1` it is written reversed. -/
theorem reverse_bins_listed_twice :
    (main specEngine cat1WorldFit ⟨false, reverseOptions ["cat1", "cat1"]⟩).outfile =
      (main specEngine cat1WorldFit ⟨false, reverseOptions []⟩).outfile ∧
    (main specEngine cat1WorldFit ⟨false, reverseOptions []⟩).lookup "cat1_prefit/bkg1" =
      some (Obj.hist (hist2 4 6)) ∧
    (main specEngine cat1WorldFit ⟨false, reverseOptions ["cat1"]⟩).lookup "cat1_prefit/bkg1" =
      some (Obj.hist (hist2 6 4)) ∧
    (main specEngine cat1WorldFit ⟨false, reverseOptions ["cat1"]⟩).lookup "cat1_postfit/bkg1" =
      some (Obj.hist (hist2 6 4)) ∧
    (main specEngine cat1WorldFit ⟨false, reverseOptions ["cat1", "cat1"]⟩).lookup
      "cat1_prefit/bkg1" = some (Obj.hist (hist2 4 6)) ∧
    (main specEngine cat1WorldFit ⟨false, reverseOptions ["cat1", "cat1"]⟩).lookup
      "cat1_postfit/bkg1" = some (Obj.hist (hist2 4 6)) := by
  refine ⟨by decide!, by decide!, by decide!, by decide!, by decide!, by decide!⟩


/-! ## Which histograms the skip-errors flag governs -/

theorem SMap.find_assign_self {α : Type} (m : SMap α) (k : String) (v : α) :
    (m.assign k v).find k = some v := by
  induction m with
  | nil => simp [SMap.assign, SMap.find]
  | cons e rest ih =>
    obtain ⟨ke, ve⟩ := e
    unfold SMap.assign
    by_cases h1 : k = ke
    · rw [if_pos h1]
      simp [SMap.find]
    · rw [if_neg h1]
      by_cases h2 : k.data < ke.data
      · rw [if_pos h2]
        simp [SMap.find]
      · rw [if_neg h2]
        have hne : ¬ (ke = k) := fun h => h1 h.symm
        have ih' : (List.find? (fun e => decide (e.1 = k)) (SMap.assign rest k v)).map Prod.snd
            = some v := ih
        simp only [SMap.find, List.find?_cons, hne, decide_False]
        exact ih'

theorem SMap.find_assign_ne {α : Type} (m : SMap α) (k k' : String) (v : α) (hk : k' ≠ k) :
    (m.assign k v).find k' = m.find k' := by
  have hk2 : ¬ (k = k') := fun h => hk h.symm
  induction m with
  | nil => simp [SMap.assign, SMap.find, hk2]
  | cons e rest ih =>
    obtain ⟨ke, ve⟩ := e
    unfold SMap.assign
    by_cases h1 : k = ke
    · rw [if_pos h1]
      subst h1
      simp [SMap.find, List.find?_cons, hk2]
    · rw [if_neg h1]
      by_cases h2 : k.data < ke.data
      · rw [if_pos h2]
        simp [SMap.find, List.find?_cons, hk2]
      · rw [if_neg h2]
        have ih' : (List.find? (fun e => decide (e.1 = k')) (SMap.assign rest k v)).map Prod.snd
            = (List.find? (fun e => decide (e.1 = k')) rest).map Prod.snd := ih
        simp only [SMap.find, List.find?_cons]
        by_cases h3 : ke = k'
        · simp [h3]
        · simp only [h3, decide_False]
          exact ih'

theorem SMap.find_mapValues {α : Type} (f : α → α) (m : SMap α) (k : String) :
    (m.mapValues f).find k = (m.find k).map f := by
  induction m with
  | nil => simp [SMap.mapValues, SMap.find]
  | cons e rest ih =>
    obtain ⟨ke, ve⟩ := e
    have ih' : (List.find? (fun e => decide (e.1 = k))
        (List.map (fun e => (e.1, f e.2)) rest)).map Prod.snd
          = ((List.find? (fun e => decide (e.1 = k)) rest).map Prod.snd).map f := ih
    simp only [SMap.mapValues, SMap.find, List.map_cons, List.find?_cons]
    by_cases h : ke = k
    · simp [h]
    · simp only [h, decide_False]
      exact ih'

theorem restoreAll_eq (E : Engine) (o : Options) (ref : TH1F) (s : SMap TH1F) :
    restoreAll E o ref s = s.mapValues (restoreOne E o ref) := by
  unfold restoreAll
  by_cases h : o.datacard ≠ ""
  · rw [if_pos h]
    congr 1
    funext x
    simp [restoreOne, h]
  · rw [if_neg h]
    have : (restoreOne E o ref) = fun x => x := by
      funext x
      simp only [restoreOne, if_neg h]
    rw [this, SMap.mapValues_id]

/-- The histogram stored under a name by a loop that assigns one histogram
per name. -/
theorem loop_find_all (hist : String → TH1F) (rate err : String → ℚ)
    (f : SMap TH1F × List RooRealVar → String → SMap TH1F × List RooRealVar)
    (hf : ∀ st x, f st x =
      (st.1.assign x (hist x), st.2 ++ [⟨"yield_" ++ x, rate x, err x⟩]))
    (xs : List String) (l : String) :
    ∀ st : SMap TH1F × List RooRealVar,
      (xs.foldl f st).1.find l = if l ∈ xs then some (hist l) else st.1.find l := by
  induction xs with
  | nil => intro st; simp
  | cons x rest ih =>
    intro st
    rw [List.foldl_cons, ih, hf]
    by_cases h1 : l ∈ rest
    · simp [h1]
    · by_cases h2 : l = x
      · subst h2
        simp [h1, SMap.find_assign_self]
      · simp [h1, h2, SMap.find_assign_ne _ _ _ _ h2]

/-- A loop over labelled elements leaves alone what is stored under a name
that is not among the labels. -/
theorem loop_find_skip {X : Type} (label : X → String)
    (f : SMap TH1F × List RooRealVar → X → SMap TH1F × List RooRealVar)
    (hf : ∀ st x, f st x = st ∨
      ∃ h r u, f st x = (st.1.assign (label x) h, st.2 ++ [⟨"yield_" ++ label x, r, u⟩]))
    (xs : List X) (l : String) (hl : l ∉ xs.map label) :
    ∀ st : SMap TH1F × List RooRealVar, (xs.foldl f st).1.find l = st.1.find l := by
  induction xs with
  | nil => intro st; rfl
  | cons x rest ih =>
    intro st
    simp only [List.map_cons, List.mem_cons, not_or] at hl
    rw [List.foldl_cons, ih hl.2]
    rcases hf st x with h | ⟨h, r, u, h⟩
    · rw [h]
    · rw [h]
      exact SMap.find_assign_ne _ _ _ _ hl.1


/-- What is stored under the names of a category after its evaluation: the
three totals, an individual process, and a merged group. -/
theorem bin_find (m : SMap String) (procs : List String) (st0 : SMap TH1F × List RooRealVar)
    (fp : SMap TH1F × List RooRealVar → String → SMap TH1F × List RooRealVar)
    (gm : SMap TH1F × List RooRealVar → String × String → SMap TH1F × List RooRealVar)
    (hist : String → TH1F) (rate err : String → ℚ)
    (hfp : ∀ st x, fp st x =
      (st.1.assign x (hist x), st.2 ++ [⟨"yield_" ++ x, rate x, err x⟩]))
    (hgm : ∀ st x, gm st x = st ∨
      ∃ h r u, gm st x = (st.1.assign x.1 h, st.2 ++ [⟨"yield_" ++ x.1, r, u⟩]))
    (tb ts tp : TH1F) (F : TH1F → TH1F) :
    (((((m.foldl gm (procs.foldl fp st0)).1.assign "TotalBkg" tb).assign "TotalSig" ts).assign
        "TotalProcs" tp).mapValues F).find "TotalBkg" = some (F tb) ∧
    (((((m.foldl gm (procs.foldl fp st0)).1.assign "TotalBkg" tb).assign "TotalSig" ts).assign
        "TotalProcs" tp).mapValues F).find "TotalSig" = some (F ts) ∧
    (((((m.foldl gm (procs.foldl fp st0)).1.assign "TotalBkg" tb).assign "TotalSig" ts).assign
        "TotalProcs" tp).mapValues F).find "TotalProcs" = some (F tp) ∧
    (∀ proc ∈ procs, proc ∉ m.keys → proc ∉ ["TotalBkg", "TotalSig", "TotalProcs"] →
      (((((m.foldl gm (procs.foldl fp st0)).1.assign "TotalBkg" tb).assign "TotalSig" ts).assign
        "TotalProcs" tp).mapValues F).find proc = some (F (hist proc))) ∧
    (∀ (m1 m2 : SMap String) (L P : String) (v : TH1F), m = m1 ++ (L, P) :: m2 →
      L ∉ m2.keys → L ∉ ["TotalBkg", "TotalSig", "TotalProcs"] →
      (∀ st, ∃ r u, gm st (L, P) = (st.1.assign L v, st.2 ++ [⟨"yield_" ++ L, r, u⟩])) →
      (((((m.foldl gm (procs.foldl fp st0)).1.assign "TotalBkg" tb).assign "TotalSig" ts).assign
        "TotalProcs" tp).mapValues F).find L = some (F v)) := by
  refine ⟨?_, ?_, ?_, ?_, ?_⟩
  · rw [SMap.find_mapValues, SMap.find_assign_ne _ _ _ _ (by decide),
      SMap.find_assign_ne _ _ _ _ (by decide), SMap.find_assign_self]
    rfl
  · rw [SMap.find_mapValues, SMap.find_assign_ne _ _ _ _ (by decide), SMap.find_assign_self]
    rfl
  · rw [SMap.find_mapValues, SMap.find_assign_self]
    rfl
  · intro proc hp hm ht
    simp only [List.mem_cons, List.mem_singleton, List.not_mem_nil, or_false, not_or] at ht
    rw [SMap.find_mapValues, SMap.find_assign_ne _ _ _ _ ht.2.2,
      SMap.find_assign_ne _ _ _ _ ht.2.1, SMap.find_assign_ne _ _ _ _ ht.1,
      loop_find_skip Prod.fst gm hgm m proc hm, loop_find_all hist rate err fp hfp procs proc,
      if_pos hp]
    rfl
  · intro m1 m2 L P v hm hL2 ht hv
    simp only [List.mem_cons, List.mem_singleton, List.not_mem_nil, or_false, not_or] at ht
    rw [SMap.find_mapValues, SMap.find_assign_ne _ _ _ _ ht.2.2,
      SMap.find_assign_ne _ _ _ _ ht.2.1, SMap.find_assign_ne _ _ _ _ ht.1, hm,
      List.foldl_append, List.foldl_cons, loop_find_skip Prod.fst gm hgm m2 L hL2]
    obtain ⟨r, u, hst⟩ := hv (m1.foldl gm (procs.foldl fp st0))
    rw [hst, SMap.find_assign_self]
    rfl

theorem prefitBin_shapes (E : Engine) (o : Options) (m : SMap String)
    (cmb cmb_card : CombineHarvester) (s0 : SMap TH1F) (c : String) :
    (prefitBin E o m cmb cmb_card s0 c).1 =
      ((((m.foldl (prefitMerged E o (cmb.bin E [c]))
          ((cmb.bin E [c]).process_set.foldl (prefitProc E o (cmb.bin E [c]))
            (s0.assign "data_obs" (E.GetObservedShape (cmb.bin E [c])),
             [⟨"yield_data_obs", E.GetObservedRate (cmb.bin E [c]),
               E.sqrt (E.GetObservedRate (cmb.bin E [c]))⟩]))).1.assign "TotalBkg"
          (E.GetShapeWithUncertainty (cmb.bin E [c]).backgrounds)).assign "TotalSig"
          (E.GetShapeWithUncertainty (cmb.bin E [c]).signals)).assign "TotalProcs"
          (E.GetShapeWithUncertainty (cmb.bin E [c]))).mapValues (finishHist E o cmb_card c) := by
  unfold prefitBin
  simp only [reverseAll_eq, restoreAll_eq, SMap.mapValues_mapValues]
  rfl

theorem postfitBin_shapes (E : Engine) (o : Options) (res : RooFitResult) (m : SMap String)
    (cmb cmb_card : CombineHarvester) (s0 : SMap TH1F) (c : String) :
    (postfitBin E o res m cmb cmb_card s0 c).1 =
      ((((m.foldl (postfitMerged E o res (cmb.bin E [c]))
          ((cmb.bin E [c]).process_set.foldl (postfitProc E o res (cmb.bin E [c]))
            (s0.assign "data_obs" (E.GetObservedShape (cmb.bin E [c])),
             [⟨"yield_data_obs", E.GetObservedRate (cmb.bin E [c]),
               E.sqrt (E.GetObservedRate (cmb.bin E [c]))⟩]))).1.assign "TotalBkg"
          (postShape E o res (cmb.bin E [c]).backgrounds)).assign "TotalSig"
          (postShape E o res (cmb.bin E [c]).signals)).assign "TotalProcs"
          (postShape E o res (cmb.bin E [c]))).mapValues (finishHist E o cmb_card c) := by
  unfold postfitBin
  simp only [reverseAll_eq, restoreAll_eq, SMap.mapValues_mapValues]
  rfl


/-- C11 as stated fails: in the run on the example model with
`--skip-proc-errs` and a 10 percent normalisation uncertainty, the histogram
of the process `bkg1` is the nominal shape without per-bin uncertainty, but
the `TotalBkg` histogram of `cat1` is written with the per-bin uncertainties
7/5 and 8/5, in the pre-fit and in the post-fit state; it is not the nominal
shape of the background selection. -/
theorem totals_keep_errors_under_skip :
    skipErrsOptions.skip_proc_errs = true ∧
    (main lnNEngine cat1World ⟨false, skipErrsOptions⟩).lookup "cat1_prefit/bkg1" =
      some (Obj.hist (hist2 4 6)) ∧
    lnNEngine.GetShape (cat1Model.bin lnNEngine ["cat1"]).backgrounds = hist2 14 16 ∧
    (main lnNEngine cat1World ⟨false, skipErrsOptions⟩).lookup "cat1_prefit/TotalBkg" =
      some (Obj.hist ⟨[0, 1, 2], (0, 0), [(14, 7 / 5), (16, 8 / 5)], (0, 0)⟩) ∧
    (main lnNEngine cat1WorldFit
        ⟨false, { postfitOptions with skip_proc_errs := true }⟩).lookup "cat1_postfit/TotalBkg" =
      some (Obj.hist ⟨[0, 1, 2], (0, 0), [(14, 7 / 5), (16, 8 / 5)], (0, 0)⟩) := by
  refine ⟨rfl, by decide!, by decide!, by decide!, by decide!⟩

/-- C11 as amended: for every category and both fit states, the skip-errors
flag decides how the histogram of every individual process and of every
merged group is evaluated: as the nominal shape without per-bin uncertainty
when the flag is set, with per-bin uncertainty when it is not.  The
category-level `TotalBkg`, `TotalSig` and `TotalProcs` histograms are
evaluated with per-bin uncertainty whatever the flag.  (Each histogram is
then rebinned and reversed as the category requires.) -/
theorem skip_errs_scope (E : Engine) (o : Options) (res : RooFitResult) (m : SMap String)
    (cmb cmb_card : CombineHarvester) (s0 : SMap TH1F) (c : String) :
    ((prefitBin E o m cmb cmb_card s0 c).1.find "TotalBkg" =
        some (finishHist E o cmb_card c
          (E.GetShapeWithUncertainty (cmb.bin E [c]).backgrounds)) ∧
     (prefitBin E o m cmb cmb_card s0 c).1.find "TotalSig" =
        some (finishHist E o cmb_card c (E.GetShapeWithUncertainty (cmb.bin E [c]).signals)) ∧
     (prefitBin E o m cmb cmb_card s0 c).1.find "TotalProcs" =
        some (finishHist E o cmb_card c (E.GetShapeWithUncertainty (cmb.bin E [c])))) ∧
    ((postfitBin E o res m cmb cmb_card s0 c).1.find "TotalBkg" =
        some (finishHist E o cmb_card c (postShape E o res (cmb.bin E [c]).backgrounds)) ∧
     (postfitBin E o res m cmb cmb_card s0 c).1.find "TotalSig" =
        some (finishHist E o cmb_card c (postShape E o res (cmb.bin E [c]).signals)) ∧
     (postfitBin E o res m cmb cmb_card s0 c).1.find "TotalProcs" =
        some (finishHist E o cmb_card c (postShape E o res (cmb.bin E [c])))) ∧
    (∀ proc ∈ (cmb.bin E [c]).process_set, proc ∉ m.keys →
      proc ∉ ["TotalBkg", "TotalSig", "TotalProcs"] →
      (prefitBin E o m cmb cmb_card s0 c).1.find proc =
        some (finishHist E o cmb_card c
          (if o.skip_proc_errs then E.GetShape ((cmb.bin E [c]).process E [proc])
           else E.GetShapeWithUncertainty ((cmb.bin E [c]).process E [proc]))) ∧
      (postfitBin E o res m cmb cmb_card s0 c).1.find proc =
        some (finishHist E o cmb_card c
          (if o.skip_proc_errs then E.GetShape ((cmb.bin E [c]).process E [proc])
           else postShape E o res ((cmb.bin E [c]).process E [proc])))) ∧
    (∀ (m1 m2 : SMap String) (L P : String), m = m1 ++ (L, P) :: m2 →
      L ∉ m2.keys → L ∉ ["TotalBkg", "TotalSig", "TotalProcs"] →
      (((cmb.bin E [c]).process E [P]).process_set).length ≠ 0 →
      (prefitBin E o m cmb cmb_card s0 c).1.find L =
        some (finishHist E o cmb_card c
          (if o.skip_proc_errs then E.GetShape ((cmb.bin E [c]).process E [P])
           else E.GetShapeWithUncertainty ((cmb.bin E [c]).process E [P]))) ∧
      (postfitBin E o res m cmb cmb_card s0 c).1.find L =
        some (finishHist E o cmb_card c
          (if o.skip_proc_errs then E.GetShape ((cmb.bin E [c]).process E [P])
           else postShape E o res ((cmb.bin E [c]).process E [P])))) := by
  have hpre := bin_find m (cmb.bin E [c]).process_set
    (s0.assign "data_obs" (E.GetObservedShape (cmb.bin E [c])),
     [⟨"yield_data_obs", E.GetObservedRate (cmb.bin E [c]),
       E.sqrt (E.GetObservedRate (cmb.bin E [c]))⟩])
    (prefitProc E o (cmb.bin E [c])) (prefitMerged E o (cmb.bin E [c]))
    (fun proc => if o.skip_proc_errs then E.GetShape ((cmb.bin E [c]).process E [proc])
      else E.GetShapeWithUncertainty ((cmb.bin E [c]).process E [proc]))
    (fun proc => E.GetRate ((cmb.bin E [c]).process E [proc]))
    (fun proc => E.GetUncertainty ((cmb.bin E [c]).process E [proc]))
    (fun _ _ => rfl) (prefitMerged_cases E o (cmb.bin E [c]))
    (E.GetShapeWithUncertainty (cmb.bin E [c]).backgrounds)
    (E.GetShapeWithUncertainty (cmb.bin E [c]).signals)
    (E.GetShapeWithUncertainty (cmb.bin E [c])) (finishHist E o cmb_card c)
  have hpost := bin_find m (cmb.bin E [c]).process_set
    (s0.assign "data_obs" (E.GetObservedShape (cmb.bin E [c])),
     [⟨"yield_data_obs", E.GetObservedRate (cmb.bin E [c]),
       E.sqrt (E.GetObservedRate (cmb.bin E [c]))⟩])
    (postfitProc E o res (cmb.bin E [c])) (postfitMerged E o res (cmb.bin E [c]))
    (fun proc => if o.skip_proc_errs then E.GetShape ((cmb.bin E [c]).process E [proc])
      else postShape E o res ((cmb.bin E [c]).process E [proc]))
    (fun proc => E.GetRate ((cmb.bin E [c]).process E [proc]))
    (fun proc => postUncert E o res ((cmb.bin E [c]).process E [proc]))
    (fun _ _ => rfl) (postfitMerged_cases E o res (cmb.bin E [c]))
    (postShape E o res (cmb.bin E [c]).backgrounds)
    (postShape E o res (cmb.bin E [c]).signals)
    (postShape E o res (cmb.bin E [c])) (finishHist E o cmb_card c)
  rw [prefitBin_shapes, postfitBin_shapes]
  obtain ⟨a1, a2, a3, a4, a5⟩ := hpre
  obtain ⟨b1, b2, b3, b4, b5⟩ := hpost
  refine ⟨⟨a1, a2, a3⟩, ⟨b1, b2, b3⟩, ?_, ?_⟩
  · intro proc hp hm ht
    exact ⟨a4 proc hp hm ht, b4 proc hp hm ht⟩
  · intro m1 m2 L P hm hL ht hsel
    constructor
    · refine a5 m1 m2 L P _ hm hL ht ?_
      intro st
      exact ⟨E.GetRate ((cmb.bin E [c]).process E [P]),
        E.GetUncertainty ((cmb.bin E [c]).process E [P]),
        by unfold prefitMerged; simp only [if_neg hsel]⟩
    · refine b5 m1 m2 L P _ hm hL ht ?_
      intro st
      exact ⟨E.GetRate ((cmb.bin E [c]).process E [P]),
        postUncert E o res ((cmb.bin E [c]).process E [P]),
        by unfold postfitMerged; simp only [if_neg hsel]⟩


/-- Witness of C11 as amended: the process `bkg1` and the merged group
`VV=bkg.*` of the example model with `--skip-proc-errs`. -/
theorem skip_errs_scope_witness :
    "bkg1" ∈ (cat1Model.bin lnNEngine ["cat1"]).process_set ∧
    "bkg1" ∉ SMap.keys [("VV", "bkg.*")] ∧
    "bkg1" ∉ ["TotalBkg", "TotalSig", "TotalProcs"] ∧
    ((prefitBin lnNEngine skipErrsOptions [("VV", "bkg.*")] cat1Model CombineHarvester.empty []
        "cat1").1.find "bkg1" =
      some (finishHist lnNEngine skipErrsOptions CombineHarvester.empty "cat1"
        (if skipErrsOptions.skip_proc_errs then
           lnNEngine.GetShape ((cat1Model.bin lnNEngine ["cat1"]).process lnNEngine ["bkg1"])
         else
           lnNEngine.GetShapeWithUncertainty
             ((cat1Model.bin lnNEngine ["cat1"]).process lnNEngine ["bkg1"]))) ∧
     (postfitBin lnNEngine skipErrsOptions ⟨[], []⟩ [("VV", "bkg.*")] cat1Model
        CombineHarvester.empty [] "cat1").1.find "bkg1" =
      some (finishHist lnNEngine skipErrsOptions CombineHarvester.empty "cat1"
        (if skipErrsOptions.skip_proc_errs then
           lnNEngine.GetShape ((cat1Model.bin lnNEngine ["cat1"]).process lnNEngine ["bkg1"])
         else
           postShape lnNEngine skipErrsOptions ⟨[], []⟩
             ((cat1Model.bin lnNEngine ["cat1"]).process lnNEngine ["bkg1"])))) :=
  ⟨by decide, by decide, by decide,
   (skip_errs_scope lnNEngine skipErrsOptions ⟨[], []⟩ [("VV", "bkg.*")] cat1Model
     CombineHarvester.empty [] "cat1").2.2.1 "bkg1" (by decide) (by decide) (by decide)⟩


/-! ## The covariance and correlation matrices -/

theorem matrixKeys_append (a b : TFile) : matrixKeys (a ++ b) = matrixKeys a ++ matrixKeys b := by
  simp [matrixKeys, List.filterMap_append]

theorem matrixKeys_writeAll (dir_h dir_y : String) (shapes : SMap TH1F)
    (yields : List RooRealVar) : matrixKeys (writeAll dir_h dir_y shapes yields) = [] := by
  unfold writeAll
  rw [matrixKeys_append]
  have h1 : matrixKeys (shapes.map (fun e => (dir_h ++ e.1, Obj.hist e.2))) = [] := by
    induction shapes with
    | nil => rfl
    | cons e rest ih => simp [matrixKeys] at ih ⊢
  have h2 : matrixKeys (yields.map (fun y => (dir_y ++ y.name, Obj.yield y))) = [] := by
    induction yields with
    | nil => rfl
    | cons e rest ih => simp [matrixKeys] at ih ⊢
  rw [h1, h2]
  rfl

theorem matrixKeys_matrices (suffix : String) (m : SMap TH2F) :
    matrixKeys (m.map (fun e => (e.1 ++ suffix, Obj.matrix e.2))) =
      m.keys.map (fun k => k ++ suffix) := by
  induction m with
  | nil => rfl
  | cons e rest ih =>
    have ih' : List.filterMap (fun r : String × Obj =>
        match r.2 with
        | Obj.matrix _ => some r.1
        | _ => none) (List.map (fun e => (e.1 ++ suffix, Obj.matrix e.2)) rest) =
          List.map (fun k => k ++ suffix) (List.map Prod.fst rest) := ih
    simp only [matrixKeys, SMap.keys, List.map_cons, List.filterMap_cons, ih']

/-- The pre-fit part writes no matrix. -/
theorem prefit_matrixKeys (E : Engine) (o : Options) (merged_procs : SMap String)
    (cmb cmb_card : CombineHarvester) (bins : List String) :
    matrixKeys (prefit E o merged_procs cmb cmb_card bins).2.1 = [] := by
  unfold prefit
  simp only []
  have hloop : ∀ (bs : List String) (st : SMap (SMap TH1F) × TFile),
      matrixKeys (prefitLoop E o merged_procs cmb cmb_card bs st).2 = matrixKeys st.2 := by
    intro bs
    unfold prefitLoop
    induction bs with
    | nil => intro st; rfl
    | cons b rest ih =>
      intro st
      rw [List.foldl_cons, ih]
      simp only [matrixKeys_append, prefitWrites, matrixKeys_writeAll, List.append_nil]
  rw [hloop]
  simp only []
  split
  · unfold prefitTotal
    simp only [matrixKeys_writeAll]
  · rfl

theorem postfitStep_cov_keys (E : Engine) (o : Options) (res : RooFitResult)
    (mp : SMap String) (cmb cmb_card : CombineHarvester) (st : PostState) (x b : String) :
    (b ∈ (postfitStep E o res mp cmb cmb_card st x).post_yield_cov.keys ↔
      (((o.sampling && o.covariance) = true ∧ b = x) ∨ b ∈ st.post_yield_cov.keys)) ∧
    (b ∈ (postfitStep E o res mp cmb cmb_card st x).post_yield_cor.keys ↔
      (((o.sampling && o.covariance) = true ∧ b = x) ∨ b ∈ st.post_yield_cor.keys)) := by
  unfold postfitStep
  simp only []
  cases hf : (o.sampling && o.covariance) with
  | true => simp [SMap.mem_keys_assign]
  | false => simp

theorem postfitStep_matrixKeys (E : Engine) (o : Options) (res : RooFitResult)
    (mp : SMap String) (cmb cmb_card : CombineHarvester) (st : PostState) (x : String) :
    matrixKeys (postfitStep E o res mp cmb cmb_card st x).outfile =
      matrixKeys st.outfile ++
        ((postfitStep E o res mp cmb cmb_card st x).post_yield_cov.keys.map
            (fun k => k ++ "_cov") ++
         (postfitStep E o res mp cmb cmb_card st x).post_yield_cor.keys.map
            (fun k => k ++ "_cor")) := by
  unfold postfitStep
  simp only [postfitWrites, matrixKeys_append, matrixKeys_writeAll, matrixKeys_matrices,
    List.nil_append, List.append_assoc]

/-- The matrix paths written by the post-fit loop over the categories. -/
theorem postfitLoop_matrixKeys (E : Engine) (o : Options) (res : RooFitResult)
    (mp : SMap String) (cmb cmb_card : CombineHarvester) (bs : List String) (k : String) :
    ∀ st : PostState,
      k ∈ matrixKeys (bs.foldl (postfitStep E o res mp cmb cmb_card) st).outfile ↔
        k ∈ matrixKeys st.outfile ∨
        (∃ b, k = b ++ "_cov" ∧
          (((o.sampling && o.covariance) = true ∧ b ∈ bs) ∨
            (b ∈ st.post_yield_cov.keys ∧ bs ≠ []))) ∨
        (∃ b, k = b ++ "_cor" ∧
          (((o.sampling && o.covariance) = true ∧ b ∈ bs) ∨
            (b ∈ st.post_yield_cor.keys ∧ bs ≠ []))) := by
  induction bs with
  | nil =>
    intro st
    simp
  | cons x rest ih =>
    intro st
    rw [List.foldl_cons, ih, postfitStep_matrixKeys]
    have hk := fun b => postfitStep_cov_keys E o res mp cmb cmb_card st x b
    simp only [List.mem_append, List.mem_map, List.mem_cons, ne_eq, not_false_eq_true,
      and_true, reduceCtorEq]
    constructor
    · rintro ((h | ⟨b, hb, rfl⟩ | ⟨b, hb, rfl⟩) | ⟨b, rfl, h⟩ | ⟨b, rfl, h⟩)
      · exact Or.inl h
      · rcases (hk b).1.mp hb with ⟨hf, rfl⟩ | h
        · exact Or.inr (Or.inl ⟨b, rfl, Or.inl ⟨hf, Or.inl rfl⟩⟩)
        · exact Or.inr (Or.inl ⟨b, rfl, Or.inr h⟩)
      · rcases (hk b).2.mp hb with ⟨hf, rfl⟩ | h
        · exact Or.inr (Or.inr ⟨b, rfl, Or.inl ⟨hf, Or.inl rfl⟩⟩)
        · exact Or.inr (Or.inr ⟨b, rfl, Or.inr h⟩)
      · rcases h with ⟨hf, hb⟩ | ⟨hb, _⟩
        · exact Or.inr (Or.inl ⟨b, rfl, Or.inl ⟨hf, Or.inr hb⟩⟩)
        · rcases (hk b).1.mp hb with ⟨hf, rfl⟩ | h
          · exact Or.inr (Or.inl ⟨b, rfl, Or.inl ⟨hf, Or.inl rfl⟩⟩)
          · exact Or.inr (Or.inl ⟨b, rfl, Or.inr h⟩)
      · rcases h with ⟨hf, hb⟩ | ⟨hb, _⟩
        · exact Or.inr (Or.inr ⟨b, rfl, Or.inl ⟨hf, Or.inr hb⟩⟩)
        · rcases (hk b).2.mp hb with ⟨hf, rfl⟩ | h
          · exact Or.inr (Or.inr ⟨b, rfl, Or.inl ⟨hf, Or.inl rfl⟩⟩)
          · exact Or.inr (Or.inr ⟨b, rfl, Or.inr h⟩)
    · rintro (h | ⟨b, rfl, h⟩ | ⟨b, rfl, h⟩)
      · exact Or.inl (Or.inl h)
      · rcases h with ⟨hf, rfl | hb⟩ | h
        · exact Or.inl (Or.inr (Or.inl ⟨b, (hk b).1.mpr (Or.inl ⟨hf, rfl⟩), rfl⟩))
        · exact Or.inr (Or.inl ⟨b, rfl, Or.inl ⟨hf, hb⟩⟩)
        · exact Or.inl (Or.inr (Or.inl ⟨b, (hk b).1.mpr (Or.inr h), rfl⟩))
      · rcases h with ⟨hf, rfl | hb⟩ | h
        · exact Or.inl (Or.inr (Or.inr ⟨b, (hk b).2.mpr (Or.inl ⟨hf, rfl⟩), rfl⟩))
        · exact Or.inr (Or.inr ⟨b, rfl, Or.inl ⟨hf, hb⟩⟩)
        · exact Or.inl (Or.inr (Or.inr ⟨b, (hk b).2.mpr (Or.inr h), rfl⟩))


theorem suffix_cancel (b c s : String) (h : b ++ s = c ++ s) : b = c := by
  have h1 := congrArg String.data h
  rw [String.data_append, String.data_append] at h1
  exact String.ext (List.append_cancel_right h1)

theorem cor_ne_cov (b c : String) : b ++ "_cor" ≠ c ++ "_cov" := by
  intro h
  have h1 := congrArg String.data h
  rw [String.data_append, String.data_append] at h1
  have h2 := (List.append_inj' h1 rfl).2
  exact absurd h2 (by decide)

/-- The matrix paths written by the part of `main` that produces the output. -/
theorem produce_matrixKeys (E : Engine) (W : World) (o : Options) (mp : SMap String)
    (cmb cmb_card : CombineHarvester) (bins : List String) (k : String) :
    k ∈ matrixKeys ((produce E W o mp cmb cmb_card bins).outfile.getD []) ↔
      (o.postfit = true ∧ (∃ res, W.OpenFromTFile o.fitresult = .ok res) ∧
        (o.sampling && o.covariance) = true ∧
        ∃ b ∈ bins, k = b ++ "_cov" ∨ k = b ++ "_cor") := by
  have hpre : matrixKeys
      (if (!o.skip_prefit) = true then prefit E o mp cmb cmb_card bins
       else (([], [], []) : SMap (SMap TH1F) × TFile × List (String × ℚ))).2.1 = [] := by
    split
    · exact prefit_matrixKeys E o mp cmb cmb_card bins
    · rfl
  unfold produce
  simp only []
  by_cases hp : o.postfit = true
  · rw [if_pos hp]
    cases hfit : W.OpenFromTFile o.fitresult with
    | error e =>
      simp only [Option.getD_some, hpre, List.not_mem_nil, false_iff]
      rintro ⟨_, ⟨res, hres⟩, _⟩
      cases hres
    | ok res =>
      simp only [Option.getD_some, postfit]
      rw [postfitLoop_matrixKeys]
      have hf0 : matrixKeys
          (if o.total_shapes = true then
            (if (!o.skip_prefit) = true then prefit E o mp cmb cmb_card bins
             else (([], [], []) : SMap (SMap TH1F) × TFile × List (String × ℚ))).2.1 ++
              postfitTotal E o res (E.UpdateParameters cmb res) cmb_card
           else
            (if (!o.skip_prefit) = true then prefit E o mp cmb cmb_card bins
             else (([], [], []) : SMap (SMap TH1F) × TFile × List (String × ℚ))).2.1) = [] := by
        split
        · rw [matrixKeys_append, hpre]
          unfold postfitTotal
          simp only [matrixKeys_writeAll, List.append_nil]
        · exact hpre
      simp only [hf0, List.not_mem_nil, false_or, SMap.keys, List.map_nil, false_and, or_false]
      constructor
      · rintro (⟨b, rfl, hf, hb⟩ | ⟨b, rfl, hf, hb⟩)
        · exact ⟨hp, ⟨res, rfl⟩, hf, b, hb, Or.inl rfl⟩
        · exact ⟨hp, ⟨res, rfl⟩, hf, b, hb, Or.inr rfl⟩
      · rintro ⟨_, _, hf, b, hb, h | h⟩
        · exact Or.inl ⟨b, h, hf, hb⟩
        · exact Or.inr ⟨b, h, hf, hb⟩
  · rw [if_neg hp]
    simp only [Option.getD_some, hpre, List.not_mem_nil, false_iff]
    rintro ⟨h, _⟩
    exact hp h

/-- C12: in a run on a loaded model, for every category `c` the matrices
`c_cov` and `c_cor` are written if and only if covariance output is
requested, sampling is on, and the post-fit state is run (post-fit requested
and the fit result loaded) with `c` among its categories; every matrix that
is written is such a matrix, so none is written in a pre-fit-only run or
with the linear method. -/
theorem covariance_matrices (E : Engine) (W : World) (cl : CommandLine)
    (ws : String → CombineHarvester) (cmb : CombineHarvester)
    (hhelp : cl.help = false)
    (hws : W.workspace cl.parsed.workspace = some ws)
    (hfreeze : freeze E (ws cl.parsed.data) cl.parsed.freeze_arg = .ok cmb) :
    (∀ c : String,
      (c ++ "_cov" ∈ matrixKeys ((main E W cl).outfile.getD []) ↔
        (cl.parsed.covariance = true ∧ cl.parsed.sampling = true ∧ cl.parsed.postfit = true ∧
          (∃ res, W.OpenFromTFile cl.parsed.fitresult = .ok res) ∧
          c ∈ (if cl.parsed.bins_.length = 0 then (cmb.FilterProcs no_shape).bin_set
               else cl.parsed.bins_))) ∧
      (c ++ "_cor" ∈ matrixKeys ((main E W cl).outfile.getD []) ↔
        (cl.parsed.covariance = true ∧ cl.parsed.sampling = true ∧ cl.parsed.postfit = true ∧
          (∃ res, W.OpenFromTFile cl.parsed.fitresult = .ok res) ∧
          c ∈ (if cl.parsed.bins_.length = 0 then (cmb.FilterProcs no_shape).bin_set
               else cl.parsed.bins_)))) ∧
    (∀ k ∈ matrixKeys ((main E W cl).outfile.getD []),
      cl.parsed.covariance = true ∧ cl.parsed.sampling = true ∧ cl.parsed.postfit = true ∧
        ∃ c ∈ (if cl.parsed.bins_.length = 0 then (cmb.FilterProcs no_shape).bin_set
               else cl.parsed.bins_), k = c ++ "_cov" ∨ k = c ++ "_cor") := by
  have hmain : main E W cl =
      produce E W cl.parsed (parseMergeProcs cl.parsed.input_merge_procs_)
        (cmb.FilterProcs no_shape)
        (if cl.parsed.datacard ≠ "" then W.ParseDatacard cl.parsed.datacard cl.parsed.mass
         else CombineHarvester.empty)
        (if cl.parsed.bins_.length = 0 then (cmb.FilterProcs no_shape).bin_set
         else cl.parsed.bins_) := by
    rw [main_eq]
    simp only [hhelp, Bool.false_eq_true, if_false]
    rw [hws]
    simp only []
    rw [hfreeze]
  rw [hmain]
  refine ⟨fun c => ⟨?_, ?_⟩, ?_⟩
  · rw [produce_matrixKeys]
    constructor
    · rintro ⟨hp, hres, hf, b, hb, h | h⟩
      · have hbc : c = b := suffix_cancel _ _ _ h
        subst hbc
        simp only [Bool.and_eq_true] at hf
        exact ⟨hf.2, hf.1, hp, hres, hb⟩
      · exact absurd h.symm (cor_ne_cov b c)
    · rintro ⟨hc, hs, hp, hres, hb⟩
      exact ⟨hp, hres, by simp [hc, hs], c, hb, Or.inl rfl⟩
  · rw [produce_matrixKeys]
    constructor
    · rintro ⟨hp, hres, hf, b, hb, h | h⟩
      · exact absurd h (cor_ne_cov c b)
      · have hbc : c = b := suffix_cancel _ _ _ h
        subst hbc
        simp only [Bool.and_eq_true] at hf
        exact ⟨hf.2, hf.1, hp, hres, hb⟩
    · rintro ⟨hc, hs, hp, hres, hb⟩
      exact ⟨hp, hres, by simp [hc, hs], c, hb, Or.inr rfl⟩
  · intro k hk
    rw [produce_matrixKeys] at hk
    obtain ⟨hp, _, hf, b, hb, h⟩ := hk
    simp only [Bool.and_eq_true] at hf
    exact ⟨hf.2, hf.1, hp, b, hb, h⟩

/-- Witness of C12: the run on the example model with `--postfit --sampling
--covariance` and a loadable fit result. -/
theorem covariance_matrices_witness :
    (false = false) ∧
    cat1WorldFit.workspace covarianceOptions.workspace = some (fun _ => cat1Model) ∧
    freeze specEngine cat1Model covarianceOptions.freeze_arg = .ok cat1Model ∧
    ((∀ c : String,
      (c ++ "_cov" ∈ matrixKeys
          ((main specEngine cat1WorldFit ⟨false, covarianceOptions⟩).outfile.getD []) ↔
        (covarianceOptions.covariance = true ∧ covarianceOptions.sampling = true ∧
          covarianceOptions.postfit = true ∧
          (∃ res, cat1WorldFit.OpenFromTFile covarianceOptions.fitresult = .ok res) ∧
          c ∈ (if covarianceOptions.bins_.length = 0 then
                 (cat1Model.FilterProcs no_shape).bin_set
               else covarianceOptions.bins_))) ∧
      (c ++ "_cor" ∈ matrixKeys
          ((main specEngine cat1WorldFit ⟨false, covarianceOptions⟩).outfile.getD []) ↔
        (covarianceOptions.covariance = true ∧ covarianceOptions.sampling = true ∧
          covarianceOptions.postfit = true ∧
          (∃ res, cat1WorldFit.OpenFromTFile covarianceOptions.fitresult = .ok res) ∧
          c ∈ (if covarianceOptions.bins_.length = 0 then
                 (cat1Model.FilterProcs no_shape).bin_set
               else covarianceOptions.bins_)))) ∧
     (∀ k ∈ matrixKeys
          ((main specEngine cat1WorldFit ⟨false, covarianceOptions⟩).outfile.getD []),
      covarianceOptions.covariance = true ∧ covarianceOptions.sampling = true ∧
        covarianceOptions.postfit = true ∧
        ∃ c ∈ (if covarianceOptions.bins_.length = 0 then
                 (cat1Model.FilterProcs no_shape).bin_set
               else covarianceOptions.bins_), k = c ++ "_cov" ∨ k = c ++ "_cor")) :=
  ⟨rfl, rfl, rfl,
   covariance_matrices specEngine cat1WorldFit ⟨false, covarianceOptions⟩ (fun _ => cat1Model)
     cat1Model rfl rfl rfl⟩


/-! ## Paths written more than once -/

/-- C15, the code at the failing inputs: in the run on the two-category model
with `--postfit --sampling --covariance` (categories `cat1` and `cat2`, no
merge directives) the post-fit loop writes every matrix stored so far in each
pass, so `cat1_cov` and `cat1_cor` are written twice; and in the run on the
example model with `--postfit --total-shapes` the path `prefit/yield_TotalBkg`
is written twice, once by the pre-fit and once by the post-fit block. -/
theorem paths_written_twice :
    (twoCatModel.FilterProcs no_shape).bin_set = ["cat1", "cat2"] ∧
    twoCatOptions.input_merge_procs_ = [] ∧
    (main specEngine twoCatWorld ⟨false, twoCatOptions⟩).exit = .ok 0 ∧
    matrixKeys ((main specEngine twoCatWorld ⟨false, twoCatOptions⟩).outfile.getD []) =
      ["cat1_cov", "cat1_cor", "cat1_cov", "cat2_cov", "cat1_cor", "cat2_cor"] ∧
    (main specEngine twoCatWorld ⟨false, twoCatOptions⟩).keys.count "cat1_cov" = 2 ∧
    (main specEngine twoCatWorld ⟨false, twoCatOptions⟩).keys.count "cat1_cor" = 2 ∧
    (main specEngine cat1WorldFit ⟨false, totalShapesOptions⟩).keys.count
      "prefit/yield_TotalBkg" = 2 := by
  refine ⟨by decide, rfl, by rfl, by decide, by decide, by decide, by decide⟩

/-- The histograms of a category are those of the run without
`--reverse-bins`, each reversed once per occurrence of the category in the
list: reversed when the number of occurrences is odd, unreversed when it is
even (in particular when the category is not listed). -/
theorem reversal_by_parity (E : Engine) (o : Options) (res : RooFitResult) (m : SMap String)
    (cmb cmb_card : CombineHarvester) (s0 : SMap TH1F) (c : String) :
    (prefitBin E o m cmb cmb_card s0 c).1 =
      (prefitBin E { o with reverse_bins_ := [] } m cmb cmb_card s0 c).1.mapValues
        (fun h => if o.reverse_bins_.count c % 2 = 0 then h else ReverseBins h) ∧
    (postfitBin E o res m cmb cmb_card s0 c).1 =
      (postfitBin E { o with reverse_bins_ := [] } res m cmb cmb_card s0 c).1.mapValues
        (fun h => if o.reverse_bins_.count c % 2 = 0 then h else ReverseBins h) := by
  have hfun : (fun h => if o.reverse_bins_.count c % 2 = 0 then h else ReverseBins h) =
      reverseOne o.reverse_bins_ c := by
    funext h
    rw [reverseOne_parity]
  rw [hfun]
  constructor
  · unfold prefitBin
    simp only [reverseAll_eq]
    rw [show reverseOne ([] : List String) c = fun h => h from rfl, SMap.mapValues_id]
    rfl
  · unfold postfitBin
    simp only [reverseAll_eq]
    rw [show reverseOne ([] : List String) c = fun h => h from rfl, SMap.mapValues_id]
    rfl

end PostFitShapes
